import Mathlib

/-!
# rtsp-simple-server: stream distribution and H264 normalization

A shallow embedding of `internal/core/stream.go`.

* Byte slices are lists of naturals (bytes are the values below 256); a nil
  slice and an empty slice are both the empty list, as `bytes.Equal` and
  `range` do not tell them apart.
* A Go run-time panic (index out of range, write to a nil map) and the
  process exit of `log.Fatal` are explicit statuses of the outcome of
  `writeData`; the state reached at that moment is kept in the outcome.
* Calls into collaborators that are not part of the file (the RTSP server
  stream, the readers, the file system) are recorded as a trace of events.
-/

namespace RtspStream

/-! ## Data model -/

/-- A NALU is a byte slice. -/
abbrev NALU := List Nat

/-- Value of `h264.NALUTypeNonIDR`. -/
def NALUTypeNonIDR : Nat := 1

/-- Value of `h264.NALUTypeIDR`. -/
def NALUTypeIDR : Nat := 5

/-- Value of `h264.NALUTypeSPS`. -/
def NALUTypeSPS : Nat := 7

/-- Value of `h264.NALUTypePPS`. -/
def NALUTypePPS : Nat := 8

/-- Value of `h264.NALUTypeAccessUnitDelimiter`. -/
def NALUTypeAccessUnitDelimiter : Nat := 9

/-- The expression `h264.NALUType(b & 0x1F)` on a header byte `b`. -/
def NALUType (b : Nat) : Nat := b &&& 0x1F

/-- The type of a NALU, read from its first byte; there is none when the
slice has no first byte (the read `nalu[0]` is then out of range). -/
def naluTyp (nalu : NALU) : Option Nat := nalu.head?.map NALUType

/-- The parameter cache of `gortsplib.TrackH264`: the two byte slices behind
`SafeSPS`/`SafeSetSPS` and `SafePPS`/`SafeSetPPS`. -/
structure TrackH264 where
  sps : List Nat
  pps : List Nat
deriving DecidableEq, Repr

/-- The getter `SafeSPS`. -/
def TrackH264.SafeSPS (t : TrackH264) : List Nat := t.sps

/-- The getter `SafePPS`. -/
def TrackH264.SafePPS (t : TrackH264) : List Nat := t.pps

/-- The setter `SafeSetSPS`. -/
def TrackH264.SafeSetSPS (t : TrackH264) (v : List Nat) : TrackH264 := ⟨v, t.pps⟩

/-- The setter `SafeSetPPS`. -/
def TrackH264.SafeSetPPS (t : TrackH264) (v : List Nat) : TrackH264 := ⟨t.sps, v⟩

/-- A `gortsplib.Track`: either a `*gortsplib.TrackH264` or a track of another
codec, for which the type assertion in `writeData` fails. -/
inductive Track
  | h264 (t : TrackH264)
  | other (codec : Nat)
deriving DecidableEq, Repr

/-- A `reader`: an identity, and whether the dynamic type is a
`pathRTSPSession`. -/
structure reader where
  id : Nat
  isPathRTSPSession : Bool
deriving DecidableEq, Repr

/-- The struct `data`; `rtp` stands for the `*rtp.Packet`, taken to be
non-nil. -/
structure data where
  trackID : Int
  rtp : Nat
  ptsEqualsDTS : Bool
  h264NALUs : List NALU
deriving DecidableEq, Repr

/-- Calls that leave `stream.go`. -/
inductive Event
  | WritePacketRTP (trackID : Int) (rtp : Nat) (ptsEqualsDTS : Bool)
  | onReaderData (r : reader) (d : data)
  | fileWrite (byts : List Nat)
  | printError
  | logFatal
deriving DecidableEq, Repr

/-- What the file system and the packet marshaller answer to
`saveToLocalBeforePublishToStream`. -/
structure Env where
  openFile : Bool
  marshalTo : Nat → Option (List Nat)

/-! ## The registry of non-RTSP readers -/

/-- The map `ma` of `streamNonRTSPReadersMap`: `none` is the nil map left by
`close`; a non-nil map is the duplicate-free list of its keys. -/
structure streamNonRTSPReadersMap where
  ma : Option (List reader)
deriving DecidableEq, Repr

/-- Constructor `newStreamNonRTSPReadersMap`. -/
def newStreamNonRTSPReadersMap : streamNonRTSPReadersMap := ⟨some []⟩

/-- Method `close`: `m.ma = nil`. -/
def streamNonRTSPReadersMap.close (_m : streamNonRTSPReadersMap) : streamNonRTSPReadersMap :=
  ⟨none⟩

/-- Method `add`: `m.ma[r] = struct{}{}`; a write to a nil map panics
(`none`). -/
def streamNonRTSPReadersMap.add (m : streamNonRTSPReadersMap) (r : reader) :
    Option streamNonRTSPReadersMap :=
  match m.ma with
  | none => none
  | some l => some ⟨some (if r ∈ l then l else l ++ [r])⟩

/-- Method `remove`: `delete(m.ma, r)`, a no-op on a nil map. -/
def streamNonRTSPReadersMap.remove (m : streamNonRTSPReadersMap) (r : reader) :
    streamNonRTSPReadersMap :=
  match m.ma with
  | none => ⟨none⟩
  | some l => ⟨some (l.filter (fun c => decide (c ≠ r)))⟩

/-- Method `forwardPacketRTP`: one `onReaderData` call per key; ranging over
a nil map makes no iteration. -/
def streamNonRTSPReadersMap.forwardPacketRTP (m : streamNonRTSPReadersMap) (d : data) :
    List Event :=
  match m.ma with
  | none => []
  | some l => l.map (fun c => Event.onReaderData c d)

/-! ## The stream -/

/-- The part of `gortsplib.ServerStream` the file relies on: the track list
and whether `Close` was called. -/
structure ServerStream where
  tracks : List Track
  closed : Bool
deriving DecidableEq, Repr

/-- The struct `stream`. -/
structure stream where
  nonRTSPReaders : streamNonRTSPReadersMap
  rtspStream : ServerStream
deriving DecidableEq, Repr

/-- Constructor `newStream`. -/
def newStream (tracks : List Track) : stream :=
  ⟨newStreamNonRTSPReadersMap, ⟨tracks, false⟩⟩

/-- Method `stream.close`. -/
def stream.close (s : stream) : stream :=
  ⟨s.nonRTSPReaders.close, ⟨s.rtspStream.tracks, true⟩⟩

/-- Method `stream.tracks`. -/
def stream.tracks (s : stream) : List Track := s.rtspStream.tracks

/-- Method `stream.readerAdd`; `none` is the panic of `add` on a nil map. -/
def stream.readerAdd (s : stream) (r : reader) : Option stream :=
  if !r.isPathRTSPSession then
    (s.nonRTSPReaders.add r).map (fun m => ⟨m, s.rtspStream⟩)
  else some s

/-- Method `stream.readerRemove`. -/
def stream.readerRemove (s : stream) (r : reader) : stream :=
  if !r.isPathRTSPSession then ⟨s.nonRTSPReaders.remove r, s.rtspStream⟩ else s

/-! ## H264 parameter caching and remuxing -/

/-- A setter call made on the track. -/
inductive SetCall
  | sps (v : List Nat)
  | pps (v : List Nat)
deriving DecidableEq, Repr

/-- The result of running `updateH264TrackParameters`: the track as the loop
left it, the setter calls made, and whether the loop ran to its end
(`false`: it panicked on `nalu[0]`). -/
structure UpdateRun where
  track : TrackH264
  sets : List SetCall
  completed : Bool
deriving DecidableEq, Repr

/-- Method `updateH264TrackParameters`. -/
def updateH264TrackParameters (h264track : TrackH264) : List NALU → UpdateRun
  | [] => ⟨h264track, [], true⟩
  | [] :: _ => ⟨h264track, [], false⟩
  | (b :: tl) :: rest =>
    if NALUType b = NALUTypeSPS then
      if (b :: tl) ≠ h264track.SafeSPS then
        let r := updateH264TrackParameters (h264track.SafeSetSPS (b :: tl)) rest
        ⟨r.track, SetCall.sps (b :: tl) :: r.sets, r.completed⟩
      else updateH264TrackParameters h264track rest
    else if NALUType b = NALUTypePPS then
      if (b :: tl) ≠ h264track.SafePPS then
        let r := updateH264TrackParameters (h264track.SafeSetPPS (b :: tl)) rest
        ⟨r.track, SetCall.pps (b :: tl) :: r.sets, r.completed⟩
      else updateH264TrackParameters h264track rest
    else updateH264TrackParameters h264track rest

/-- The loop of `remuxH264NALUs`, with `filteredNALUs` as accumulator;
`none` is the panic of `nalu[0]` on an empty slice. -/
def remuxLoop (h264track : TrackH264) : List NALU → List NALU → Option (List NALU)
  | [], filteredNALUs => some filteredNALUs
  | [] :: _, _ => none
  | (b :: tl) :: rest, filteredNALUs =>
    if NALUType b = NALUTypeSPS ∨ NALUType b = NALUTypePPS then
      remuxLoop h264track rest filteredNALUs
    else if NALUType b = NALUTypeAccessUnitDelimiter then
      remuxLoop h264track rest filteredNALUs
    else if NALUType b = NALUTypeIDR then
      remuxLoop h264track rest
        ((filteredNALUs ++ [h264track.SafeSPS, h264track.SafePPS]) ++ [b :: tl])
    else
      remuxLoop h264track rest (filteredNALUs ++ [b :: tl])

/-- Method `remuxH264NALUs`: the payload is assigned after the loop, so a
panic leaves `data` as it was. -/
def remuxH264NALUs (h264track : TrackH264) (d : data) : Option data :=
  (remuxLoop h264track d.h264NALUs []).map
    (fun filteredNALUs => ⟨d.trackID, d.rtp, d.ptsEqualsDTS, filteredNALUs⟩)

/-! ## Publishing -/

/-- The result of `saveToLocalBeforePublishToStream`: its events and whether
it ended the process through `log.Fatal`. -/
structure SaveRun where
  trace : List Event
  exited : Bool
deriving DecidableEq, Repr

/-- Function `saveToLocalBeforePublishToStream`. -/
def saveToLocalBeforePublishToStream (env : Env) (trackID : Int) (pkt : Nat)
    (_ptsEqualsDTS : Bool) (_us : List NALU) : SaveRun :=
  if trackID ≠ 0 then ⟨[], false⟩
  else if !env.openFile then ⟨[Event.logFatal], true⟩
  else
    match env.marshalTo pkt with
    | none => ⟨[Event.printError], false⟩
    | some byts => ⟨[Event.fileWrite byts], false⟩

/-- How a call of `writeData` ends. -/
inductive Status
  | returned
  | panicked
  | exited
deriving DecidableEq, Repr

/-- The outcome of `writeData`: how it ended, the stream and the sample as
it left them, and the calls it made. -/
structure Outcome where
  status : Status
  s : stream
  d : data
  trace : List Event
deriving DecidableEq, Repr

/-- The index expression `tracks[trackID]`; `none` is index out of range. -/
def trackAt (tracks : List Track) (trackID : Int) : Option Track :=
  if 0 ≤ trackID then tracks[trackID.toNat]? else none

/-- The stream after the track at `trackID` was mutated in place. -/
def stream.withTrack (s : stream) (trackID : Int) (t : Track) : stream :=
  ⟨s.nonRTSPReaders, ⟨s.rtspStream.tracks.set trackID.toNat t, s.rtspStream.closed⟩⟩

/-- Lines 143-148 of `writeData`: the RTSP sink, the non-RTSP readers, the
copy on disk. -/
def forward (env : Env) (s : stream) (d : data) : Outcome :=
  let sv := saveToLocalBeforePublishToStream env d.trackID d.rtp d.ptsEqualsDTS d.h264NALUs
  ⟨if sv.exited then Status.exited else Status.returned, s, d,
    (Event.WritePacketRTP d.trackID d.rtp d.ptsEqualsDTS
      :: s.nonRTSPReaders.forwardPacketRTP d) ++ sv.trace⟩

/-- Method `stream.writeData`. -/
def writeData (env : Env) (s : stream) (d : data) : Outcome :=
  match trackAt s.rtspStream.tracks d.trackID with
  | none => ⟨Status.panicked, s, d, []⟩
  | some (Track.other _) => forward env s d
  | some (Track.h264 h264track) =>
    let u := updateH264TrackParameters h264track d.h264NALUs
    let s1 := s.withTrack d.trackID (Track.h264 u.track)
    if !u.completed then ⟨Status.panicked, s1, d, []⟩
    else
      match remuxH264NALUs u.track d with
      | none => ⟨Status.panicked, s1, d, []⟩
      | some d1 => forward env s1 d1

/-! ## Notions used to state the properties -/

/-- The NALU has a first byte whose low 5 bits say SPS. -/
abbrev isSPS (n : NALU) : Prop := naluTyp n = some NALUTypeSPS

/-- The NALU has a first byte whose low 5 bits say PPS. -/
abbrev isPPS (n : NALU) : Prop := naluTyp n = some NALUTypePPS

/-- The NALU has a first byte whose low 5 bits say IDR. -/
abbrev isIDR (n : NALU) : Prop := naluTyp n = some NALUTypeIDR

/-- The NALU has a first byte whose low 5 bits say access-unit delimiter. -/
abbrev isAUD (n : NALU) : Prop := naluTyp n = some NALUTypeAccessUnitDelimiter

/-- The NALU is neither a parameter set nor a delimiter: the remuxer copies
it to its output. -/
def retained (n : NALU) : Bool := decide (¬ (isSPS n ∨ isPPS n ∨ isAUD n))

/-- Reference definition of the remuxer, per input NALU: nothing for a
parameter set or a delimiter, the cached pair and the unit for an IDR, the
unit itself otherwise. -/
def refSegment (c : TrackH264) (n : NALU) : List NALU :=
  if isSPS n ∨ isPPS n ∨ isAUD n then []
  else if isIDR n then [c.sps, c.pps, n]
  else [n]

/-- The reference definition with every output unit marked: `true` for a
unit injected from the cache, `false` for a unit taken from the input. -/
def refTagged (c : TrackH264) (n : NALU) : List (Bool × NALU) :=
  if isSPS n ∨ isPPS n ∨ isAUD n then []
  else if isIDR n then [(true, c.sps), (true, c.pps), (false, n)]
  else [(false, n)]

/-- The effect of one loop iteration of the update on the cache. -/
def cacheStep (h : TrackH264) (n : NALU) : TrackH264 :=
  if isSPS n then ⟨n, h.pps⟩ else if isPPS n then ⟨h.sps, n⟩ else h

/-- A cached value is either absent or a unit of its own kind. -/
def wellTyped (c : TrackH264) : Prop :=
  (c.sps = [] ∨ isSPS c.sps) ∧ (c.pps = [] ∨ isPPS c.pps)

/-- The predicate holds of the cache of every H264 track of the list. -/
def allCaches (P : TrackH264 → Prop) (tracks : List Track) : Prop :=
  ∀ t ∈ tracks, ∀ h, t = Track.h264 h → P h

/-- Streams reached from a new stream whose H264 caches are empty by calls of
`writeData`, whatever their ending, interleaved in any order with calls of
`readerAdd`, `readerRemove` and `close`. -/
inductive Reachable : stream → Prop
  | init (tracks : List Track) :
      allCaches (fun h => h = ⟨[], []⟩) tracks → Reachable (newStream tracks)
  | write (env : Env) (st : stream) (d : data) :
      Reachable st → Reachable (writeData env st d).s
  | readerAdd (st : stream) (r : reader) (s1 : stream) :
      Reachable st → st.readerAdd r = some s1 → Reachable s1
  | readerRemove (st : stream) (r : reader) :
      Reachable st → Reachable (st.readerRemove r)
  | close (st : stream) :
      Reachable st → Reachable st.close

/-- The single-pass normalizer of the specification: the cache is updated at
each parameter set as it is met, and an IDR gets the pair cached at the
moment it is met. Returns the final cache and the output. -/
def specSinglePass (c : TrackH264) : List NALU → TrackH264 × List NALU
  | [] => (c, [])
  | n :: rest =>
    if isSPS n then
      specSinglePass (if n ≠ c.sps then ⟨n, c.pps⟩ else c) rest
    else if isPPS n then
      specSinglePass (if n ≠ c.pps then ⟨c.sps, n⟩ else c) rest
    else if isIDR n then
      ((specSinglePass c rest).1, c.sps :: c.pps :: n :: (specSinglePass c rest).2)
    else if isAUD n then
      specSinglePass c rest
    else
      ((specSinglePass c rest).1, n :: (specSinglePass c rest).2)

/-- No parameter set comes after an IDR unit in the sample. -/
def noParamAfterIDR : List NALU → Prop
  | [] => True
  | n :: rest => (isIDR n → ∀ m ∈ rest, ¬ isSPS m ∧ ¬ isPPS m) ∧ noParamAfterIDR rest

/-- The values passed to `SafeSetSPS`, in call order. -/
def spsSets : List SetCall → List (List Nat)
  | [] => []
  | SetCall.sps v :: r => v :: spsSets r
  | SetCall.pps _ :: r => spsSets r

/-- The values passed to `SafeSetPPS`, in call order. -/
def ppsSets : List SetCall → List (List Nat)
  | [] => []
  | SetCall.sps _ :: r => ppsSets r
  | SetCall.pps v :: r => v :: ppsSets r

/-- Deciding `noParamAfterIDR` by walking the sample. -/
instance noParamAfterIDR.dec : (l : List NALU) → Decidable (noParamAfterIDR l)
  | [] => isTrue trivial
  | n :: rest =>
    have : Decidable (noParamAfterIDR rest) := noParamAfterIDR.dec rest
    inferInstanceAs
      (Decidable ((isIDR n → ∀ m ∈ rest, ¬ isSPS m ∧ ¬ isPPS m) ∧ noParamAfterIDR rest))

/-- The payload starts with an SPS unit, then a PPS unit, then an IDR unit. -/
def startsWithPair : List NALU → Bool
  | x :: y :: z :: _ => decide (isSPS x) && decide (isPPS y) && decide (isIDR z)
  | _ => false

/-- The payload is framed as the claim on normalized output states it: no
delimiter; every SPS-typed element is followed by a PPS-typed element and
then an IDR-typed element; every PPS-typed element is preceded by an SPS-typed
element. -/
def FramedStrict (P : List NALU) : Prop :=
  ∀ i x, P[i]? = some x →
    ¬ isAUD x ∧
    (isSPS x → ∃ y z, P[i + 1]? = some y ∧ isPPS y ∧ P[i + 2]? = some z ∧ isIDR z) ∧
    (isPPS x → ∃ j w, i = j + 1 ∧ P[j]? = some w ∧ isSPS w)

/-- The payload is framed around the cache `c`: no delimiter; every SPS-typed
element is the cached SPS, followed by the cached PPS value and then an
IDR-typed element; every PPS-typed element is the cached PPS, preceded by the
cached SPS value and followed by an IDR-typed element. -/
def Framed (c : TrackH264) (P : List NALU) : Prop :=
  ∀ i x, P[i]? = some x →
    ¬ isAUD x ∧
    (isSPS x → x = c.sps ∧ P[i + 1]? = some c.pps ∧ ∃ z, P[i + 2]? = some z ∧ isIDR z) ∧
    (isPPS x → x = c.pps ∧
      ∃ j, i = j + 1 ∧ P[j]? = some c.sps ∧ ∃ z, P[i + 1]? = some z ∧ isIDR z)

/-- The keys of the registry map; a nil map has none. -/
def streamNonRTSPReadersMap.members (m : streamNonRTSPReadersMap) : List reader :=
  match m.ma with
  | none => []
  | some l => l

/-- The list stands for a Go map: no key occurs twice. -/
def streamNonRTSPReadersMap.valid (m : streamNonRTSPReadersMap) : Prop := m.members.Nodup

/-- Deciding `valid` by comparing the keys. -/
instance streamNonRTSPReadersMap.validDec (m : streamNonRTSPReadersMap) : Decidable m.valid :=
  inferInstanceAs (Decidable m.members.Nodup)

/-- Number of `onReaderData` calls made on the reader `c` in a trace. -/
def deliveriesTo (c : reader) (tr : List Event) : Nat :=
  tr.countP (fun e =>
    match e with
    | Event.onReaderData r _ => decide (r = c)
    | _ => false)

/-- Number of `WritePacketRTP` calls made on the RTSP server stream in a
trace. -/
def sinkCalls (tr : List Event) : Nat :=
  tr.countP (fun e =>
    match e with
    | Event.WritePacketRTP _ _ _ => true
    | _ => false)

/-- The event is a delivery to a non-RTSP reader. -/
def Event.isReaderData : Event → Bool
  | Event.onReaderData _ _ => true
  | _ => false

/-- A registration call. -/
inductive ReaderOp
  | add (r : reader)
  | remove (r : reader)
deriving DecidableEq, Repr

/-- A sequence of `add` and `remove` calls on the registry; `none` when an
`add` panics. -/
def streamNonRTSPReadersMap.runOps :
    streamNonRTSPReadersMap → List ReaderOp → Option streamNonRTSPReadersMap
  | m, [] => some m
  | m, ReaderOp.add r :: ops =>
    match m.add r with
    | none => none
    | some m1 => m1.runOps ops
  | m, ReaderOp.remove r :: ops => (m.remove r).runOps ops

/-- A sequence of `readerAdd` and `readerRemove` calls on the stream; `none`
when a `readerAdd` panics. -/
def stream.runOps : stream → List ReaderOp → Option stream
  | s, [] => some s
  | s, ReaderOp.add r :: ops =>
    match s.readerAdd r with
    | none => none
    | some s1 => s1.runOps ops
  | s, ReaderOp.remove r :: ops => (s.readerRemove r).runOps ops

/-- Replaying recorded setter calls on a track. -/
def applySets : TrackH264 → List SetCall → TrackH264
  | h, [] => h
  | h, SetCall.sps v :: r => applySets (h.SafeSetSPS v) r
  | h, SetCall.pps v :: r => applySets (h.SafeSetPPS v) r

/-- The last NALU of the sample whose type is `t`, if there is one. -/
def lastOfType (t : Nat) (l : List NALU) : Option NALU :=
  (l.filter (fun n => decide (naluTyp n = some t))).getLast?

/-! ## Basic facts about the two loops -/

theorem naluTyp_cons (b : Nat) (tl : List Nat) : naluTyp (b :: tl) = some (NALUType b) := rfl

theorem naluTyp_ne_nil {n : NALU} {t : Nat} (h : naluTyp n = some t) : n ≠ [] := by
  intro hn
  subst hn
  simp [naluTyp] at h

theorem update_spec (h : TrackH264) (nalus : List NALU) (hne : ∀ n ∈ nalus, n ≠ []) :
    (updateH264TrackParameters h nalus).track = nalus.foldl cacheStep h ∧
    (updateH264TrackParameters h nalus).completed = true := by
  induction nalus generalizing h with
  | nil => simp [updateH264TrackParameters]
  | cons n rest ih =>
    have hrest : ∀ m ∈ rest, m ≠ [] := fun m hm => hne m (List.mem_cons_of_mem _ hm)
    cases n with
    | nil => exact absurd rfl (hne [] (List.mem_cons_self _ _))
    | cons b tl =>
      obtain ⟨sps, pps⟩ := h
      simp only [updateH264TrackParameters, List.foldl_cons, cacheStep, isSPS, isPPS,
        naluTyp_cons, Option.some.injEq, TrackH264.SafeSPS, TrackH264.SafePPS,
        TrackH264.SafeSetSPS, TrackH264.SafeSetPPS]
      by_cases h7 : NALUType b = NALUTypeSPS
      · by_cases he : b :: tl = sps
        · simp only [h7, he, if_true, ne_eq, not_true_eq_false, if_false]
          exact ih _ hrest
        · simp only [h7, if_true, ne_eq, he, not_false_eq_true]
          exact ih _ hrest
      · by_cases h8 : NALUType b = NALUTypePPS
        · by_cases he : b :: tl = pps
          · simp only [h7, h8, he, if_true, ne_eq, not_true_eq_false, if_false]
            exact ih _ hrest
          · simp only [h7, h8, if_true, ne_eq, he, not_false_eq_true, if_false]
            exact ih _ hrest
        · simp only [h7, h8, if_false]
          exact ih _ hrest

theorem remuxLoop_spec (c : TrackH264) (nalus acc : List NALU) (hne : ∀ n ∈ nalus, n ≠ []) :
    remuxLoop c nalus acc = some (acc ++ nalus.flatMap (refSegment c)) := by
  induction nalus generalizing acc with
  | nil => simp [remuxLoop]
  | cons n rest ih =>
    have hrest : ∀ m ∈ rest, m ≠ [] := fun m hm => hne m (List.mem_cons_of_mem _ hm)
    cases n with
    | nil => exact absurd rfl (hne [] (List.mem_cons_self _ _))
    | cons b tl =>
      simp only [remuxLoop, List.flatMap_cons, refSegment, isSPS, isPPS, isAUD, isIDR,
        naluTyp_cons, Option.some.injEq, TrackH264.SafeSPS, TrackH264.SafePPS]
      by_cases h7 : NALUType b = NALUTypeSPS
      · simp [h7, ih _ hrest]
      · by_cases h8 : NALUType b = NALUTypePPS
        · simp [h8, ih _ hrest]
        · by_cases h9 : NALUType b = NALUTypeAccessUnitDelimiter
          · simp [h9, ih _ hrest]
          · by_cases h5 : NALUType b = NALUTypeIDR
            · simp [h5, NALUTypeIDR, NALUTypeSPS, NALUTypePPS, NALUTypeAccessUnitDelimiter,
                ih _ hrest]
            · simp [h7, h8, h9, h5, ih _ hrest]

theorem remuxLoop_panic (c : TrackH264) (nalus acc : List NALU) (hex : ∃ n ∈ nalus, n = []) :
    remuxLoop c nalus acc = none := by
  induction nalus generalizing acc with
  | nil => simp at hex
  | cons n rest ih =>
    cases n with
    | nil => simp [remuxLoop]
    | cons b tl =>
      have hrest : ∃ m ∈ rest, m = [] := by
        obtain ⟨m, hm, he⟩ := hex
        rcases List.mem_cons.1 hm with h1 | h1
        · subst h1; cases he
        · exact ⟨m, h1, he⟩
      simp only [remuxLoop]
      split_ifs <;> exact ih _ hrest

theorem update_panic (h : TrackH264) (nalus : List NALU) (hex : ∃ n ∈ nalus, n = []) :
    (updateH264TrackParameters h nalus).completed = false := by
  induction nalus generalizing h with
  | nil => simp at hex
  | cons n rest ih =>
    cases n with
    | nil => simp [updateH264TrackParameters]
    | cons b tl =>
      have hrest : ∃ m ∈ rest, m = [] := by
        obtain ⟨m, hm, he⟩ := hex
        rcases List.mem_cons.1 hm with h1 | h1
        · subst h1; cases he
        · exact ⟨m, h1, he⟩
      simp only [updateH264TrackParameters]
      split_ifs <;> exact ih _ hrest

theorem forward_d (env : Env) (st : stream) (d : data) : (forward env st d).d = d := rfl

theorem forward_s (env : Env) (st : stream) (d : data) : (forward env st d).s = st := rfl

theorem forward_status (env : Env) (st : stream) (d : data) :
    (forward env st d).status ≠ Status.panicked := by
  unfold forward
  simp only
  split_ifs <;> simp

theorem forward_returned (env : Env) (st : stream) (d : data)
    (h : env.openFile = true ∨ d.trackID ≠ 0) :
    (forward env st d).status = Status.returned := by
  unfold forward saveToLocalBeforePublishToStream
  rcases h with h | h
  · by_cases h0 : d.trackID ≠ 0
    · simp [h0]
    · cases hm : env.marshalTo d.rtp <;> simp [h0, h, hm]
  · simp [h]

/-- The H264 branch of `writeData` on a sample of non-empty NALUs: the cache
is folded over the sample, then the sample is rewritten with the final cache
and forwarded. -/
theorem writeData_h264 (env : Env) (st : stream) (d : data) (h : TrackH264)
    (ht : trackAt st.rtspStream.tracks d.trackID = some (Track.h264 h))
    (hne : ∀ n ∈ d.h264NALUs, n ≠ []) :
    writeData env st d =
      forward env (st.withTrack d.trackID (Track.h264 (d.h264NALUs.foldl cacheStep h)))
        ⟨d.trackID, d.rtp, d.ptsEqualsDTS,
          d.h264NALUs.flatMap (refSegment (d.h264NALUs.foldl cacheStep h))⟩ := by
  obtain ⟨h1, h2⟩ := update_spec h d.h264NALUs hne
  unfold writeData
  rw [ht]
  simp only [h2, Bool.not_true, Bool.false_eq_true, if_false, remuxH264NALUs,
    remuxLoop_spec _ _ [] hne, List.nil_append, Option.map_some', h1]

theorem trackAt_withTrack (st : stream) (i : Int) (t0 t : Track)
    (ht : trackAt st.rtspStream.tracks i = some t0) :
    trackAt (st.withTrack i t).rtspStream.tracks i = some t := by
  unfold trackAt at ht ⊢
  by_cases h0 : 0 ≤ i
  · simp only [h0, if_true] at ht ⊢
    have hlt : i.toNat < st.rtspStream.tracks.length := by
      by_contra hc
      rw [List.getElem?_eq_none (Nat.le_of_not_lt hc)] at ht
      cases ht
    simp [stream.withTrack, hlt]
  · simp [h0] at ht

theorem cacheStep_sps (h : TrackH264) (n : NALU) :
    ((cacheStep h n).sps = h.sps ∧ ¬ isSPS n) ∨ ((cacheStep h n).sps = n ∧ isSPS n) := by
  unfold cacheStep
  split_ifs with h7 h8
  · exact Or.inr ⟨rfl, h7⟩
  · exact Or.inl ⟨rfl, h7⟩
  · exact Or.inl ⟨rfl, h7⟩

theorem cacheStep_pps (h : TrackH264) (n : NALU) :
    ((cacheStep h n).pps = h.pps ∧ ¬ isPPS n) ∨ ((cacheStep h n).pps = n ∧ isPPS n) := by
  unfold cacheStep
  split_ifs with h7 h8
  · refine Or.inl ⟨rfl, ?_⟩
    intro h8
    have h78 : some NALUTypeSPS = some NALUTypePPS := h7.symm.trans h8
    simp [NALUTypeSPS, NALUTypePPS] at h78
  · exact Or.inr ⟨rfl, h8⟩
  · exact Or.inl ⟨rfl, h8⟩

theorem cacheStep_of_not (h : TrackH264) (n : NALU) (h7 : ¬ isSPS n) (h8 : ¬ isPPS n) :
    cacheStep h n = h := by
  rw [cacheStep, if_neg h7, if_neg h8]

theorem foldl_cacheStep_sps (h : TrackH264) (l : List NALU) :
    (l.foldl cacheStep h).sps = h.sps ∨
      ∃ n ∈ l, isSPS n ∧ (l.foldl cacheStep h).sps = n := by
  induction l generalizing h with
  | nil => exact Or.inl rfl
  | cons n rest ih =>
    rw [List.foldl_cons]
    rcases ih (cacheStep h n) with e | ⟨m, hm, h7, e⟩
    · rcases cacheStep_sps h n with ⟨e1, _⟩ | ⟨e1, h7⟩
      · exact Or.inl (e.trans e1)
      · exact Or.inr ⟨n, List.mem_cons_self _ _, h7, e.trans e1⟩
    · exact Or.inr ⟨m, List.mem_cons_of_mem _ hm, h7, e⟩

theorem foldl_cacheStep_pps (h : TrackH264) (l : List NALU) :
    (l.foldl cacheStep h).pps = h.pps ∨
      ∃ n ∈ l, isPPS n ∧ (l.foldl cacheStep h).pps = n := by
  induction l generalizing h with
  | nil => exact Or.inl rfl
  | cons n rest ih =>
    rw [List.foldl_cons]
    rcases ih (cacheStep h n) with e | ⟨m, hm, h8, e⟩
    · rcases cacheStep_pps h n with ⟨e1, _⟩ | ⟨e1, h8⟩
      · exact Or.inl (e.trans e1)
      · exact Or.inr ⟨n, List.mem_cons_self _ _, h8, e.trans e1⟩
    · exact Or.inr ⟨m, List.mem_cons_of_mem _ hm, h8, e⟩

theorem flatMap_refSegment_noIDR (c : TrackH264) (l : List NALU) (hno : ∀ n ∈ l, ¬ isIDR n) :
    l.flatMap (refSegment c) = l.filter retained := by
  induction l with
  | nil => rfl
  | cons n rest ih =>
    have h5 : ¬ isIDR n := hno n (List.mem_cons_self _ _)
    rw [List.flatMap_cons, ih (fun m hm => hno m (List.mem_cons_of_mem _ hm))]
    by_cases hk : isSPS n ∨ isPPS n ∨ isAUD n
    · have hr : retained n = false := by simp [retained, hk]
      rw [refSegment, if_pos hk, List.filter_cons_of_neg (by simp [hr])]
      rfl
    · have hr : retained n = true := by simp [retained, hk]
      rw [refSegment, if_neg hk, if_neg h5, List.filter_cons_of_pos hr]
      rfl

theorem refSegment_idr (c : TrackH264) (n : NALU) (h5 : isIDR n) :
    refSegment c n = [c.sps, c.pps, n] := by
  have e : naluTyp n = some NALUTypeIDR := h5
  have hk : ¬ (isSPS n ∨ isPPS n ∨ isAUD n) := by
    simp [isSPS, isPPS, isAUD, e, NALUTypeIDR, NALUTypeSPS, NALUTypePPS,
      NALUTypeAccessUnitDelimiter]
  rw [refSegment, if_neg hk, if_pos h5]

theorem split_first_idr (l : List NALU) (hidr : ∃ n ∈ l, isIDR n) :
    ∃ idr tail, l.dropWhile (fun n => decide (¬ isIDR n)) = idr :: tail ∧ isIDR idr ∧
      l = l.takeWhile (fun n => decide (¬ isIDR n)) ++ idr :: tail ∧
      ∀ x ∈ l.takeWhile (fun n => decide (¬ isIDR n)), ¬ isIDR x := by
  induction l with
  | nil => simp at hidr
  | cons n rest ih =>
    by_cases h5 : isIDR n
    · refine ⟨n, rest, ?_, h5, ?_, ?_⟩
      · rw [List.dropWhile_cons_of_neg (by simp [h5])]
      · rw [List.takeWhile_cons_of_neg (by simp [h5])]
        rfl
      · rw [List.takeWhile_cons_of_neg (by simp [h5])]
        simp
    · have hrest : ∃ m ∈ rest, isIDR m := by
        obtain ⟨m, hm, h⟩ := hidr
        rcases List.mem_cons.1 hm with e | hm
        · subst e; exact absurd h h5
        · exact ⟨m, hm, h⟩
      obtain ⟨idr, tail, hd, hi, hl, hpre⟩ := ih hrest
      refine ⟨idr, tail, ?_, hi, ?_, ?_⟩
      · rw [List.dropWhile_cons_of_pos (by simp [h5])]
        exact hd
      · rw [List.takeWhile_cons_of_pos (by simp [h5]), List.cons_append, ← hl]
      · rw [List.takeWhile_cons_of_pos (by simp [h5])]
        intro x hx
        rcases List.mem_cons.1 hx with e | hx
        · subst e; exact h5
        · exact hpre x hx

theorem writeData_s_h264 (env : Env) (st : stream) (d : data) (h : TrackH264)
    (ht : trackAt st.rtspStream.tracks d.trackID = some (Track.h264 h)) :
    (writeData env st d).s =
      st.withTrack d.trackID (Track.h264 (updateH264TrackParameters h d.h264NALUs).track) := by
  unfold writeData
  rw [ht]
  simp only
  split_ifs
  · rfl
  · cases remuxH264NALUs (updateH264TrackParameters h d.h264NALUs).track d <;> rfl

theorem getElem?_append_of_some {α : Type} (A B : List α) (k : Nat) (y : α)
    (hk : A[k]? = some y) : (A ++ B)[k]? = some y := by
  have hlt : k < A.length := by
    by_contra hc
    rw [List.getElem?_eq_none (Nat.le_of_not_lt hc)] at hk
    cases hk
  rw [List.getElem?_append_left hlt]
  exact hk

theorem getElem?_append_shift {α : Type} (A B : List α) (k : Nat) (y : α)
    (hk : B[k]? = some y) : (A ++ B)[k + A.length]? = some y := by
  rw [List.getElem?_append_right (Nat.le_add_left _ _), Nat.add_sub_cancel]
  exact hk

theorem Framed_append (c : TrackH264) (A B : List NALU) (hA : Framed c A) (hB : Framed c B) :
    Framed c (A ++ B) := by
  intro i x hx
  by_cases hi : i < A.length
  · rw [List.getElem?_append_left hi] at hx
    obtain ⟨h9, h7, h8⟩ := hA i x hx
    refine ⟨h9, ?_, ?_⟩
    · intro t7
      obtain ⟨e, h1, z, h2, hz⟩ := h7 t7
      exact ⟨e, getElem?_append_of_some A B _ _ h1, z, getElem?_append_of_some A B _ _ h2, hz⟩
    · intro t8
      obtain ⟨e, j, hj, h1, z, h2, hz⟩ := h8 t8
      exact ⟨e, j, hj, getElem?_append_of_some A B _ _ h1, z,
        getElem?_append_of_some A B _ _ h2, hz⟩
  · have hle : A.length ≤ i := Nat.le_of_not_lt hi
    rw [List.getElem?_append_right hle] at hx
    obtain ⟨h9, h7, h8⟩ := hB (i - A.length) x hx
    refine ⟨h9, ?_, ?_⟩
    · intro t7
      obtain ⟨e, h1, z, h2, hz⟩ := h7 t7
      have e1 : i + 1 = (i - A.length + 1) + A.length := by omega
      have e2 : i + 2 = (i - A.length + 2) + A.length := by omega
      refine ⟨e, ?_, z, ?_, hz⟩
      · rw [e1]; exact getElem?_append_shift A B _ _ h1
      · rw [e2]; exact getElem?_append_shift A B _ _ h2
    · intro t8
      obtain ⟨e, j, hj, h1, z, h2, hz⟩ := h8 t8
      have e1 : i + 1 = (i - A.length + 1) + A.length := by omega
      refine ⟨e, j + A.length, by omega, getElem?_append_shift A B _ _ h1, z, ?_, hz⟩
      rw [e1]; exact getElem?_append_shift A B _ _ h2

theorem wellTyped_not (c : TrackH264) (hw : wellTyped c) :
    ¬ isAUD c.sps ∧ ¬ isPPS c.sps ∧ ¬ isIDR c.sps ∧
    ¬ isAUD c.pps ∧ ¬ isSPS c.pps ∧ ¬ isIDR c.pps := by
  obtain ⟨h7, h8⟩ := hw
  have a7 : ∀ t, t ≠ NALUTypeSPS → ¬ naluTyp c.sps = some t := by
    intro t ht e
    rcases h7 with h0 | h0
    · rw [h0] at e; simp [naluTyp] at e
    · have h0 : naluTyp c.sps = some NALUTypeSPS := h0
      rw [h0] at e
      exact ht (Option.some.inj e).symm
  have a8 : ∀ t, t ≠ NALUTypePPS → ¬ naluTyp c.pps = some t := by
    intro t ht e
    rcases h8 with h0 | h0
    · rw [h0] at e; simp [naluTyp] at e
    · have h0 : naluTyp c.pps = some NALUTypePPS := h0
      rw [h0] at e
      exact ht (Option.some.inj e).symm
  exact ⟨a7 _ (by decide), a7 _ (by decide), a7 _ (by decide),
    a8 _ (by decide), a8 _ (by decide), a8 _ (by decide)⟩

theorem Framed_segment (c : TrackH264) (n : NALU) (hw : wellTyped c) :
    Framed c (refSegment c n) := by
  obtain ⟨s9, s8, s5, p9, p7, p5⟩ := wellTyped_not c hw
  by_cases hk : isSPS n ∨ isPPS n ∨ isAUD n
  · rw [refSegment, if_pos hk]
    intro i x hx
    simp at hx
  · have n7 : ¬ isSPS n := fun a => hk (Or.inl a)
    have n8 : ¬ isPPS n := fun a => hk (Or.inr (Or.inl a))
    have n9 : ¬ isAUD n := fun a => hk (Or.inr (Or.inr a))
    by_cases h5 : isIDR n
    · rw [refSegment, if_neg hk, if_pos h5]
      intro i x hx
      match i, hx with
      | 0, hx =>
        have e : c.sps = x := by simpa using hx
        subst e
        exact ⟨s9, fun _ => ⟨rfl, rfl, n, rfl, h5⟩, fun t => absurd t s8⟩
      | 1, hx =>
        have e : c.pps = x := by simpa using hx
        subst e
        exact ⟨p9, fun t => absurd t p7, fun _ => ⟨rfl, 0, rfl, rfl, n, rfl, h5⟩⟩
      | 2, hx =>
        have e : n = x := by simpa using hx
        subst e
        exact ⟨n9, fun t => absurd t n7, fun t => absurd t n8⟩
      | k + 3, hx => simp at hx
    · rw [refSegment, if_neg hk, if_neg h5]
      intro i x hx
      match i, hx with
      | 0, hx =>
        have e : n = x := by simpa using hx
        subst e
        exact ⟨n9, fun t => absurd t n7, fun t => absurd t n8⟩
      | k + 1, hx => simp at hx

theorem Framed_flatMap (c : TrackH264) (l : List NALU) (hw : wellTyped c) :
    Framed c (l.flatMap (refSegment c)) := by
  induction l with
  | nil =>
    intro i x hx
    simp at hx
  | cons n rest ih =>
    rw [List.flatMap_cons]
    exact Framed_append c _ _ (Framed_segment c n hw) ih

theorem Framed_strict (c : TrackH264) (P : List NALU) (hF : Framed c P)
    (hw : wellTyped c) (hs : c.sps ≠ []) (hp : c.pps ≠ []) : FramedStrict P := by
  have t7 : isSPS c.sps := hw.1.resolve_left hs
  have t8 : isPPS c.pps := hw.2.resolve_left hp
  intro i x hx
  obtain ⟨h9, h7, h8⟩ := hF i x hx
  refine ⟨h9, ?_, ?_⟩
  · intro a
    obtain ⟨_, h1, z, h2, hz⟩ := h7 a
    exact ⟨c.pps, z, h1, t8, h2, hz⟩
  · intro a
    obtain ⟨_, j, hj, h1, _⟩ := h8 a
    exact ⟨j, c.sps, hj, h1, t7⟩

theorem update_wellTyped (h : TrackH264) (nalus : List NALU) (hw : wellTyped h) :
    wellTyped (updateH264TrackParameters h nalus).track := by
  induction nalus generalizing h with
  | nil => exact hw
  | cons n rest ih =>
    cases n with
    | nil => exact hw
    | cons b tl =>
      simp only [updateH264TrackParameters]
      split_ifs with h7 he h8 he
      · exact ih _ ⟨Or.inr (by simp [isSPS, naluTyp_cons, h7, TrackH264.SafeSetSPS]),
          by simpa [TrackH264.SafeSetSPS] using hw.2⟩
      · exact ih _ hw
      · exact ih _ ⟨by simpa [TrackH264.SafeSetPPS] using hw.1,
          Or.inr (by simp [isPPS, naluTyp_cons, h8, TrackH264.SafeSetPPS])⟩
      · exact ih _ hw
      · exact ih _ hw

theorem trackAt_mem (tracks : List Track) (i : Int) (t : Track)
    (ht : trackAt tracks i = some t) : t ∈ tracks := by
  unfold trackAt at ht
  split_ifs at ht
  exact List.getElem?_mem ht

theorem writeData_tracks (env : Env) (st : stream) (d : data) :
    (writeData env st d).s.rtspStream.tracks = st.rtspStream.tracks ∨
    ∃ h, trackAt st.rtspStream.tracks d.trackID = some (Track.h264 h) ∧
      (writeData env st d).s.rtspStream.tracks =
        st.rtspStream.tracks.set d.trackID.toNat
          (Track.h264 (updateH264TrackParameters h d.h264NALUs).track) := by
  cases ht : trackAt st.rtspStream.tracks d.trackID with
  | none =>
    left
    unfold writeData
    rw [ht]
  | some t =>
    cases t with
    | other k =>
      left
      unfold writeData
      rw [ht]
      rfl
    | h264 h =>
      right
      refine ⟨h, rfl, ?_⟩
      rw [writeData_s_h264 env st d h ht]
      rfl

theorem readerAdd_rtspStream (st s1 : stream) (r : reader)
    (h : st.readerAdd r = some s1) : s1.rtspStream = st.rtspStream := by
  unfold stream.readerAdd at h
  split_ifs at h
  · cases ha : st.nonRTSPReaders.add r with
    | none => rw [ha] at h; cases h
    | some m =>
      rw [ha] at h
      simp only [Option.map_some', Option.some.injEq] at h
      rw [← h]
  · simp only [Option.some.injEq] at h
    rw [← h]

theorem readerRemove_rtspStream (st : stream) (r : reader) :
    (st.readerRemove r).rtspStream = st.rtspStream := by
  unfold stream.readerRemove
  split_ifs <;> rfl

theorem reachable_wellTyped (st : stream) (hr : Reachable st) :
    allCaches wellTyped st.rtspStream.tracks := by
  induction hr with
  | init tracks h0 =>
    intro t ht h e
    have := h0 t ht h e
    subst this
    exact ⟨Or.inl rfl, Or.inl rfl⟩
  | readerAdd st r s1 _ hadd ih =>
    rw [readerAdd_rtspStream st s1 r hadd]
    exact ih
  | readerRemove st r _ ih =>
    rw [readerRemove_rtspStream st r]
    exact ih
  | close st _ ih => exact ih
  | write env st d _ ih =>
    rcases writeData_tracks env st d with e | ⟨h, ht, e⟩
    · rw [e]; exact ih
    · rw [e]
      intro t hmem c hc
      rcases List.mem_or_eq_of_mem_set hmem with hm | hm
      · exact ih t hm c hc
      · rw [hc] at hm
        cases hm
        exact update_wellTyped h _ (ih _ (trackAt_mem _ _ _ ht) h rfl)

/-- Every well-typed cache is the cache some sample of non-empty NALUs leaves
on an empty cache: the well-typed caches are the reachable ones. -/
theorem wellTyped_reachable (h : TrackH264) (hw : wellTyped h) :
    ∃ l : List NALU, (∀ n ∈ l, n ≠ []) ∧
      (updateH264TrackParameters ⟨[], []⟩ l).track = h ∧
      (updateH264TrackParameters ⟨[], []⟩ l).completed = true := by
  obtain ⟨sps, pps⟩ := h
  obtain ⟨h7, h8⟩ := hw
  simp only at h7 h8
  have key : ∀ l : List NALU, (∀ n ∈ l, n ≠ []) → l.foldl cacheStep ⟨[], []⟩ = ⟨sps, pps⟩ →
      ∃ l : List NALU, (∀ n ∈ l, n ≠ []) ∧
        (updateH264TrackParameters ⟨[], []⟩ l).track = ⟨sps, pps⟩ ∧
        (updateH264TrackParameters ⟨[], []⟩ l).completed = true := by
    intro l hl e
    exact ⟨l, hl, (update_spec _ l hl).1.trans e, (update_spec _ l hl).2⟩
  rcases h7 with h7 | h7
  · subst h7
    rcases h8 with h8 | h8
    · subst h8
      exact key [] (by simp) rfl
    · refine key [pps] (by simpa using naluTyp_ne_nil h8) ?_
      have n7 : ¬ isSPS pps := by
        intro a
        have h78 : some NALUTypeSPS = some NALUTypePPS := a.symm.trans h8
        simp [NALUTypeSPS, NALUTypePPS] at h78
      simp only [List.foldl_cons, List.foldl_nil, cacheStep, if_neg n7, if_pos h8]
  · rcases h8 with h8 | h8
    · subst h8
      refine key [sps] (by simpa using naluTyp_ne_nil h7) ?_
      simp only [List.foldl_cons, List.foldl_nil, cacheStep, if_pos h7]
    · refine key [sps, pps] ?_ ?_
      · intro n hn
        simp only [List.mem_cons, List.mem_singleton, List.not_mem_nil, or_false] at hn
        rcases hn with rfl | rfl
        · exact naluTyp_ne_nil h7
        · exact naluTyp_ne_nil h8
      · have n7 : ¬ isSPS pps := by
          intro a
          have h78 : some NALUTypeSPS = some NALUTypePPS := a.symm.trans h8
          simp [NALUTypeSPS, NALUTypePPS] at h78
        simp only [List.foldl_cons, List.foldl_nil, cacheStep, if_pos h7, if_neg n7, if_pos h8]

theorem cacheStep_idr (h : TrackH264) (n : NALU) (h5 : isIDR n) : cacheStep h n = h := by
  have e : naluTyp n = some NALUTypeIDR := h5
  exact cacheStep_of_not h n (by simp [isSPS, e, NALUTypeIDR, NALUTypeSPS])
    (by simp [isPPS, e, NALUTypeIDR, NALUTypePPS])

theorem refSegment_param (c : TrackH264) (n : NALU) (hk : isSPS n ∨ isPPS n) :
    refSegment c n = [] := by
  rw [refSegment, if_pos (hk.elim Or.inl (fun a => Or.inr (Or.inl a)))]

theorem refSegment_cache_irrelevant (c c0 : TrackH264) (n : NALU) (h5 : ¬ isIDR n) :
    refSegment c n = refSegment c0 n := by
  unfold refSegment
  split_ifs <;> rfl

theorem specSinglePass_cons (c : TrackH264) (n : NALU) (rest : List NALU) :
    specSinglePass c (n :: rest) =
      ((specSinglePass (cacheStep c n) rest).1,
        refSegment c n ++ (specSinglePass (cacheStep c n) rest).2) := by
  obtain ⟨sps, pps⟩ := c
  by_cases h7 : isSPS n
  · have hc : cacheStep ⟨sps, pps⟩ n = (if n ≠ sps then ⟨n, pps⟩ else ⟨sps, pps⟩) := by
      rw [cacheStep, if_pos h7]
      by_cases e : n = sps
      · simp [e]
      · simp [e]
    rw [specSinglePass, if_pos h7, refSegment_param _ _ (Or.inl h7), hc]
    rfl
  · by_cases h8 : isPPS n
    · have hc : cacheStep ⟨sps, pps⟩ n = (if n ≠ pps then ⟨sps, n⟩ else ⟨sps, pps⟩) := by
        rw [cacheStep, if_neg h7, if_pos h8]
        by_cases e : n = pps
        · simp [e]
        · simp [e]
      rw [specSinglePass, if_neg h7, if_pos h8, refSegment_param _ _ (Or.inr h8), hc]
      rfl
    · rw [cacheStep_of_not _ _ h7 h8, specSinglePass, if_neg h7, if_neg h8]
      by_cases h5 : isIDR n
      · rw [if_pos h5, refSegment_idr _ _ h5]
        rfl
      · rw [if_neg h5]
        by_cases h9 : isAUD n
        · rw [if_pos h9, refSegment, if_pos (Or.inr (Or.inr h9))]
          rfl
        · have hk : ¬ (isSPS n ∨ isPPS n ∨ isAUD n) := by
            rintro (a | a | a)
            · exact h7 a
            · exact h8 a
            · exact h9 a
          rw [if_neg h9, refSegment, if_neg hk, if_neg h5]
          rfl

theorem specSinglePass_fst (c : TrackH264) (l : List NALU) :
    (specSinglePass c l).1 = l.foldl cacheStep c := by
  induction l generalizing c with
  | nil => rfl
  | cons n rest ih => rw [specSinglePass_cons, List.foldl_cons]; exact ih _

theorem foldl_cacheStep_noParam (c : TrackH264) (l : List NALU)
    (hno : ∀ m ∈ l, ¬ isSPS m ∧ ¬ isPPS m) : l.foldl cacheStep c = c := by
  induction l with
  | nil => rfl
  | cons n rest ih =>
    rw [List.foldl_cons, cacheStep_of_not _ _ (hno n (List.mem_cons_self _ _)).1
      (hno n (List.mem_cons_self _ _)).2]
    exact ih (fun m hm => hno m (List.mem_cons_of_mem _ hm))

theorem specSinglePass_snd (c : TrackH264) (l : List NALU) (hl : noParamAfterIDR l) :
    (specSinglePass c l).2 = l.flatMap (refSegment (l.foldl cacheStep c)) := by
  induction l generalizing c with
  | nil => rfl
  | cons n rest ih =>
    obtain ⟨hn, hrest⟩ := hl
    rw [specSinglePass_cons, List.flatMap_cons, List.foldl_cons]
    show refSegment c n ++ (specSinglePass (cacheStep c n) rest).2 = _
    rw [ih _ hrest]
    congr 1
    by_cases h5 : isIDR n
    · rw [foldl_cacheStep_noParam _ _ (hn h5), cacheStep_idr _ _ h5]
    · exact refSegment_cache_irrelevant _ _ _ h5

theorem foldl_sps_origin (h : TrackH264) (l : List NALU) :
    (l.foldl cacheStep h).sps = h.sps ∨
      ∃ pre post, l = pre ++ (l.foldl cacheStep h).sps :: post ∧
        isSPS (l.foldl cacheStep h).sps ∧
        (l.foldl cacheStep h).sps ≠ (pre.foldl cacheStep h).sps := by
  induction l generalizing h with
  | nil => exact Or.inl rfl
  | cons n rest ih =>
    rw [List.foldl_cons]
    rcases ih (cacheStep h n) with e | ⟨pre, post, hl, h7, hd⟩
    · rcases cacheStep_sps h n with ⟨e1, _⟩ | ⟨e1, h7⟩
      · exact Or.inl (e.trans e1)
      · by_cases hn : n = h.sps
        · exact Or.inl (e.trans (e1.trans hn))
        · right
          refine ⟨[], rest, ?_, ?_, ?_⟩
          · rw [e, e1]; rfl
          · rw [e, e1]; exact h7
          · rw [e, e1]; exact hn
    · right
      refine ⟨n :: pre, post, ?_, h7, ?_⟩
      · rw [List.cons_append, ← hl]
      · rw [List.foldl_cons]; exact hd

theorem foldl_pps_origin (h : TrackH264) (l : List NALU) :
    (l.foldl cacheStep h).pps = h.pps ∨
      ∃ pre post, l = pre ++ (l.foldl cacheStep h).pps :: post ∧
        isPPS (l.foldl cacheStep h).pps ∧
        (l.foldl cacheStep h).pps ≠ (pre.foldl cacheStep h).pps := by
  induction l generalizing h with
  | nil => exact Or.inl rfl
  | cons n rest ih =>
    rw [List.foldl_cons]
    rcases ih (cacheStep h n) with e | ⟨pre, post, hl, h8, hd⟩
    · rcases cacheStep_pps h n with ⟨e1, _⟩ | ⟨e1, h8⟩
      · exact Or.inl (e.trans e1)
      · by_cases hn : n = h.pps
        · exact Or.inl (e.trans (e1.trans hn))
        · right
          refine ⟨[], rest, ?_, ?_, ?_⟩
          · rw [e, e1]; rfl
          · rw [e, e1]; exact h8
          · rw [e, e1]; exact hn
    · right
      refine ⟨n :: pre, post, ?_, h8, ?_⟩
      · rw [List.cons_append, ← hl]
      · rw [List.foldl_cons]; exact hd

theorem update_cons (h : TrackH264) (n : NALU) (rest : List NALU) (hn : n ≠ []) :
    updateH264TrackParameters h (n :: rest) =
      if isSPS n then
        if n ≠ h.sps then
          ⟨(updateH264TrackParameters ⟨n, h.pps⟩ rest).track,
            SetCall.sps n :: (updateH264TrackParameters ⟨n, h.pps⟩ rest).sets,
            (updateH264TrackParameters ⟨n, h.pps⟩ rest).completed⟩
        else updateH264TrackParameters h rest
      else if isPPS n then
        if n ≠ h.pps then
          ⟨(updateH264TrackParameters ⟨h.sps, n⟩ rest).track,
            SetCall.pps n :: (updateH264TrackParameters ⟨h.sps, n⟩ rest).sets,
            (updateH264TrackParameters ⟨h.sps, n⟩ rest).completed⟩
        else updateH264TrackParameters h rest
      else updateH264TrackParameters h rest := by
  cases n with
  | nil => exact absurd rfl hn
  | cons b tl =>
    simp only [updateH264TrackParameters, isSPS, isPPS, naluTyp_cons, Option.some.injEq,
      TrackH264.SafeSPS, TrackH264.SafePPS, TrackH264.SafeSetSPS, TrackH264.SafeSetPPS]

theorem isSPS_not_isPPS (n : NALU) (h7 : isSPS n) : ¬ isPPS n := by
  intro h8
  have h78 : some NALUTypeSPS = some NALUTypePPS := h7.symm.trans h8
  simp [NALUTypeSPS, NALUTypePPS] at h78

theorem update_sps_same (h : TrackH264) (l : List NALU) (hne : ∀ n ∈ l, n ≠ [])
    (ho : ∀ n ∈ l, isSPS n → n = h.sps) :
    spsSets (updateH264TrackParameters h l).sets = [] ∧
    (updateH264TrackParameters h l).track.sps = h.sps := by
  induction l generalizing h with
  | nil => exact ⟨rfl, rfl⟩
  | cons n rest ih =>
    have hrest : ∀ m ∈ rest, m ≠ [] := fun m hm => hne m (List.mem_cons_of_mem _ hm)
    have horest : ∀ m ∈ rest, isSPS m → m = h.sps :=
      fun m hm => ho m (List.mem_cons_of_mem _ hm)
    rw [update_cons h n rest (hne n (List.mem_cons_self _ _))]
    split_ifs with h7 he h8 he
    · exact absurd (ho n (List.mem_cons_self _ _) h7) he
    · exact ih h hrest horest
    · exact ih ⟨h.sps, n⟩ hrest horest
    · exact ih h hrest horest
    · exact ih h hrest horest

theorem update_pps_same (h : TrackH264) (l : List NALU) (hne : ∀ n ∈ l, n ≠ [])
    (ho : ∀ n ∈ l, isPPS n → n = h.pps) :
    ppsSets (updateH264TrackParameters h l).sets = [] ∧
    (updateH264TrackParameters h l).track.pps = h.pps := by
  induction l generalizing h with
  | nil => exact ⟨rfl, rfl⟩
  | cons n rest ih =>
    have hrest : ∀ m ∈ rest, m ≠ [] := fun m hm => hne m (List.mem_cons_of_mem _ hm)
    have horest : ∀ m ∈ rest, isPPS m → m = h.pps :=
      fun m hm => ho m (List.mem_cons_of_mem _ hm)
    rw [update_cons h n rest (hne n (List.mem_cons_self _ _))]
    split_ifs with h7 he h8 he
    · exact ih ⟨n, h.pps⟩ hrest horest
    · exact ih h hrest horest
    · exact absurd (ho n (List.mem_cons_self _ _) h8) he
    · exact ih h hrest horest
    · exact ih h hrest horest

theorem update_sps_first (h : TrackH264) (s : NALU) (l : List NALU)
    (hne : ∀ n ∈ l, n ≠ []) (hs : isSPS s) (hmem : s ∈ l)
    (ho : ∀ n ∈ l, isSPS n → n = s) (hd : h.sps ≠ s) :
    spsSets (updateH264TrackParameters h l).sets = [s] ∧
    (updateH264TrackParameters h l).track.sps = s := by
  induction l generalizing h with
  | nil => simp at hmem
  | cons n rest ih =>
    have hrest : ∀ m ∈ rest, m ≠ [] := fun m hm => hne m (List.mem_cons_of_mem _ hm)
    have horest : ∀ m ∈ rest, isSPS m → m = s :=
      fun m hm => ho m (List.mem_cons_of_mem _ hm)
    have hmrest : ¬ isSPS n → s ∈ rest := by
      intro h7
      rcases List.mem_cons.1 hmem with e | hm
      · subst e; exact absurd hs h7
      · exact hm
    rw [update_cons h n rest (hne n (List.mem_cons_self _ _))]
    split_ifs with h7 he h8 he
    · have en : n = s := ho n (List.mem_cons_self _ _) h7
      subst en
      obtain ⟨a, b⟩ := update_sps_same ⟨n, h.pps⟩ rest hrest horest
      exact ⟨by simp only [spsSets, a], b⟩
    · have en : n = s := ho n (List.mem_cons_self _ _) h7
      rw [not_not] at he
      exact absurd (he.symm.trans en) hd
    · obtain ⟨a, b⟩ := ih ⟨h.sps, n⟩ hrest (hmrest h7) horest hd
      exact ⟨by simp only [spsSets, a], b⟩
    · exact ih h hrest (hmrest h7) horest hd
    · exact ih h hrest (hmrest h7) horest hd

theorem update_pps_first (h : TrackH264) (p : NALU) (l : List NALU)
    (hne : ∀ n ∈ l, n ≠ []) (hp : isPPS p) (hmem : p ∈ l)
    (ho : ∀ n ∈ l, isPPS n → n = p) (hd : h.pps ≠ p) :
    ppsSets (updateH264TrackParameters h l).sets = [p] ∧
    (updateH264TrackParameters h l).track.pps = p := by
  induction l generalizing h with
  | nil => simp at hmem
  | cons n rest ih =>
    have hrest : ∀ m ∈ rest, m ≠ [] := fun m hm => hne m (List.mem_cons_of_mem _ hm)
    have horest : ∀ m ∈ rest, isPPS m → m = p :=
      fun m hm => ho m (List.mem_cons_of_mem _ hm)
    have hmrest : ¬ isPPS n → p ∈ rest := by
      intro h8
      rcases List.mem_cons.1 hmem with e | hm
      · subst e; exact absurd hp h8
      · exact hm
    rw [update_cons h n rest (hne n (List.mem_cons_self _ _))]
    split_ifs with h7 he h8 he
    · obtain ⟨a, b⟩ := ih ⟨n, h.pps⟩ hrest (hmrest (isSPS_not_isPPS n h7)) horest hd
      exact ⟨by simp only [ppsSets, a], b⟩
    · exact ih h hrest (hmrest (isSPS_not_isPPS n h7)) horest hd
    · have en : n = p := ho n (List.mem_cons_self _ _) h8
      subst en
      obtain ⟨a, b⟩ := update_pps_same ⟨h.sps, n⟩ rest hrest horest
      exact ⟨by simp only [ppsSets, a], b⟩
    · have en : n = p := ho n (List.mem_cons_self _ _) h8
      rw [not_not] at he
      exact absurd (he.symm.trans en) hd
    · exact ih h hrest (hmrest h8) horest hd

theorem update_no_set (h : TrackH264) (l : List NALU) (hne : ∀ n ∈ l, n ≠ [])
    (ho7 : ∀ n ∈ l, isSPS n → n = h.sps) (ho8 : ∀ n ∈ l, isPPS n → n = h.pps) :
    (updateH264TrackParameters h l).sets = [] ∧ (updateH264TrackParameters h l).track = h := by
  induction l with
  | nil => exact ⟨rfl, rfl⟩
  | cons n rest ih =>
    have hrest : ∀ m ∈ rest, m ≠ [] := fun m hm => hne m (List.mem_cons_of_mem _ hm)
    have h7rest : ∀ m ∈ rest, isSPS m → m = h.sps :=
      fun m hm => ho7 m (List.mem_cons_of_mem _ hm)
    have h8rest : ∀ m ∈ rest, isPPS m → m = h.pps :=
      fun m hm => ho8 m (List.mem_cons_of_mem _ hm)
    rw [update_cons h n rest (hne n (List.mem_cons_self _ _))]
    split_ifs with h7 he h8 he
    · exact absurd (ho7 n (List.mem_cons_self _ _) h7) he
    · exact ih hrest h7rest h8rest
    · exact absurd (ho8 n (List.mem_cons_self _ _) h8) he
    · exact ih hrest h7rest h8rest
    · exact ih hrest h7rest h8rest

/-! ## Claims -/

/-- C4, refuted as stated: for the sample made of an IDR and a zero-length
NALU the remuxer panics on `nalu[0]` and returns no sequence, while the
reference concatenation is a list of four units. -/
theorem remux_reference_counterexample :
    remuxH264NALUs ⟨[0x67, 1], [0x68, 2]⟩ ⟨0, 0, true, [[0x65], []]⟩ = none ∧
    ([[0x65], []] : List NALU).flatMap (refSegment ⟨[0x67, 1], [0x68, 2]⟩) =
      [[0x67, 1], [0x68, 2], [0x65], []] := by
  decide

/-- C4, amended. For every cache and every sample whose NALUs are all
non-empty, the remuxer returns the reference concatenation: over the input in
order, nothing for a parameter set or delimiter, the cached pair and the unit
for an IDR, the unit itself for anything else. Removing the injected units
from that output gives the input with parameter sets and delimiters deleted,
the rest unchanged and in order. -/
theorem remux_eq_reference (c : TrackH264) (d : data)
    (hne : ∀ n ∈ d.h264NALUs, n ≠ []) :
    remuxH264NALUs c d = some ⟨d.trackID, d.rtp, d.ptsEqualsDTS,
        d.h264NALUs.flatMap (refSegment c)⟩ ∧
    (d.h264NALUs.flatMap (refTagged c)).map Prod.snd = d.h264NALUs.flatMap (refSegment c) ∧
    ((d.h264NALUs.flatMap (refTagged c)).filter (fun x => !x.1)).map Prod.snd =
        d.h264NALUs.filter retained := by
  refine ⟨?_, ?_, ?_⟩
  · simp [remuxH264NALUs, remuxLoop_spec c _ [] hne]
  · clear hne
    induction d.h264NALUs with
    | nil => rfl
    | cons n rest ih =>
      simp only [List.flatMap_cons, List.map_append, ih]
      congr 1
      unfold refTagged refSegment
      split_ifs <;> rfl
  · clear hne
    induction d.h264NALUs with
    | nil => rfl
    | cons n rest ih =>
      simp only [List.flatMap_cons, List.filter_append, List.map_append, ih]
      by_cases hk : isSPS n ∨ isPPS n ∨ isAUD n
      · simp [refTagged, retained, hk]
      · have hr : retained n = true := by simp [retained, hk]
        by_cases h5 : isIDR n
        · rw [refTagged, if_neg hk, if_pos h5]
          simp [hr]
        · rw [refTagged, if_neg hk, if_neg h5]
          simp [hr]

/-- Witness of C4 amended on a sample with a delimiter, a parameter set, an
IDR and a slice. -/
theorem remux_eq_reference_witness :
    remuxH264NALUs ⟨[0x67, 1], [0x68, 2]⟩ ⟨0, 0, true, [[0x09], [0x67, 3], [0x65, 4], [0x41, 5]]⟩ =
      some ⟨0, 0, true, [[0x67, 1], [0x68, 2], [0x65, 4], [0x41, 5]]⟩ :=
  ((remux_eq_reference ⟨[0x67, 1], [0x68, 2]⟩
      ⟨0, 0, true, [[0x09], [0x67, 3], [0x65, 4], [0x41, 5]]⟩ (by decide)).1).trans
    (by decide)

/-- C6. On a track that is not an H264 track, `writeData` goes straight to
forwarding: the sample, its payload included, and the whole stream, every
track's cached parameters included, are left as they were, and the call does
not panic. -/
theorem writeData_other_track (env : Env) (st : stream) (d : data) (codec : Nat)
    (ht : trackAt st.rtspStream.tracks d.trackID = some (Track.other codec)) :
    writeData env st d = forward env st d ∧
    (writeData env st d).d = d ∧
    (writeData env st d).d.h264NALUs = d.h264NALUs ∧
    (writeData env st d).s = st ∧
    (writeData env st d).s.rtspStream.tracks = st.rtspStream.tracks ∧
    (writeData env st d).status ≠ Status.panicked := by
  have e : writeData env st d = forward env st d := by
    unfold writeData
    rw [ht]
  rw [e]
  exact ⟨rfl, rfl, rfl, rfl, rfl, forward_status env st d⟩

/-- Witness of C6: an audio sample on track 1 of a stream with an H264 track
and another track. -/
theorem writeData_other_track_witness :
    (writeData ⟨true, fun _ => none⟩ (newStream [Track.h264 ⟨[0x67], [0x68]⟩, Track.other 97])
        ⟨1, 0, true, [[0x67, 1], [0x65]]⟩).d.h264NALUs = [[0x67, 1], [0x65]] :=
  (writeData_other_track ⟨true, fun _ => none⟩
    (newStream [Track.h264 ⟨[0x67], [0x68]⟩, Track.other 97])
    ⟨1, 0, true, [[0x67, 1], [0x65]]⟩ 97 (by decide)).2.2.1

/-- C9, refuted as stated: with one track and a sample for track 1, the index
expression `tracks[trackID]` is out of range and `writeData` ends in a
run-time panic, not in a reported error. -/
theorem writeData_invalid_track_counterexample :
    (writeData ⟨true, fun _ => none⟩ (newStream [Track.h264 ⟨[], []⟩])
      ⟨1, 0, true, [[0x65]]⟩).status = Status.panicked ∧
    (writeData ⟨true, fun _ => none⟩ (newStream [Track.h264 ⟨[], []⟩])
      ⟨-1, 0, true, [[0x65]]⟩).status = Status.panicked := by
  decide

/-- C9, amended. For a sample whose `trackID` is negative or at least the
number of tracks, `writeData` panics at the track lookup, before anything
else: no call of the RTSP sink, no delivery to a reader, no write to disk,
and the stream and the sample are as they were. -/
theorem writeData_invalid_track_panics (env : Env) (st : stream) (d : data)
    (hbad : d.trackID < 0 ∨ (st.rtspStream.tracks.length : Int) ≤ d.trackID) :
    (writeData env st d).status = Status.panicked ∧
    (writeData env st d).trace = [] ∧
    (writeData env st d).s = st ∧
    (writeData env st d).d = d := by
  have hnone : trackAt st.rtspStream.tracks d.trackID = none := by
    unfold trackAt
    rcases hbad with hneg | hbig
    · rw [if_neg (by omega)]
    · have h0 : 0 ≤ d.trackID := le_trans (Int.natCast_nonneg _) hbig
      rw [if_pos h0]
      apply List.getElem?_eq_none
      omega
  unfold writeData
  rw [hnone]
  exact ⟨rfl, rfl, rfl, rfl⟩

/-- Witness of C9 amended: track index 2 on a stream of two tracks. -/
theorem writeData_invalid_track_panics_witness :
    (writeData ⟨true, fun _ => none⟩
        ⟨⟨some [⟨7, false⟩]⟩, ⟨[Track.h264 ⟨[], []⟩, Track.other 97], false⟩⟩
        ⟨2, 0, true, [[0x65]]⟩).trace = [] :=
  (writeData_invalid_track_panics ⟨true, fun _ => none⟩
    ⟨⟨some [⟨7, false⟩]⟩, ⟨[Track.h264 ⟨[], []⟩, Track.other 97], false⟩⟩
    ⟨2, 0, true, [[0x65]]⟩ (Or.inr (by decide))).2.1

/-- C10, refuted as stated: on an H264 track, a sample holding a zero-length
NALU makes the read `nalu[0]` of `updateH264TrackParameters` go out of range;
`writeData` ends in a run-time panic, not in a reported error. -/
theorem writeData_empty_nalu_counterexample :
    (updateH264TrackParameters ⟨[], []⟩ [[0x65], []]).completed = false ∧
    (writeData ⟨true, fun _ => none⟩ (newStream [Track.h264 ⟨[], []⟩])
      ⟨0, 0, true, [[0x65], []]⟩).status = Status.panicked := by
  decide

/-- C10, amended. For an H264 sample that contains a zero-length NALU,
`updateH264TrackParameters` does not run to its end: the read `nalu[0]` is
out of range and `writeData` panics there. Nothing is distributed, the
payload is not rewritten and the registry is as it was; `remuxH264NALUs`, were
it to run on that sample, would panic at its own `nalu[0]`. -/
theorem writeData_empty_nalu_panics (env : Env) (st : stream) (d : data) (h : TrackH264)
    (ht : trackAt st.rtspStream.tracks d.trackID = some (Track.h264 h))
    (hex : ∃ n ∈ d.h264NALUs, n = []) :
    (updateH264TrackParameters h d.h264NALUs).completed = false ∧
    (writeData env st d).status = Status.panicked ∧
    (writeData env st d).trace = [] ∧
    (writeData env st d).d = d ∧
    (writeData env st d).s.nonRTSPReaders = st.nonRTSPReaders ∧
    ∀ c : TrackH264, remuxH264NALUs c d = none := by
  have hp := update_panic h d.h264NALUs hex
  have hw : writeData env st d =
      ⟨Status.panicked,
        st.withTrack d.trackID (Track.h264 (updateH264TrackParameters h d.h264NALUs).track),
        d, []⟩ := by
    unfold writeData
    rw [ht]
    simp [hp]
  refine ⟨hp, ?_, ?_, ?_, ?_, ?_⟩
  · rw [hw]
  · rw [hw]
  · rw [hw]
  · rw [hw]; rfl
  · intro c
    simp [remuxH264NALUs, remuxLoop_panic c _ [] hex]

/-- Witness of C10 amended: an SPS, then a zero-length NALU, with one reader
registered. -/
theorem writeData_empty_nalu_panics_witness :
    (writeData ⟨true, fun _ => none⟩
        ⟨⟨some [⟨7, false⟩]⟩, ⟨[Track.h264 ⟨[], []⟩], false⟩⟩
        ⟨0, 0, true, [[0x67, 1], []]⟩).trace = [] :=
  (writeData_empty_nalu_panics ⟨true, fun _ => none⟩
    ⟨⟨some [⟨7, false⟩]⟩, ⟨[Track.h264 ⟨[], []⟩], false⟩⟩
    ⟨0, 0, true, [[0x67, 1], []]⟩ ⟨[], []⟩ (by decide) (by decide)).2.2.1

/-- C2. On an H264 track 0 whose cache starts empty, with `s` an SPS, `p` a
PPS, `i1` and `i2` IDR units, `a` a delimiter and `q` a slice that is neither
IDR nor parameter set nor delimiter: `writeData` on `[s, p, i1]` leaves the
cache `(s, p)` and the payload `[s, p, i1]`; then on `[i2]` it leaves the
payload `[s, p, i2]`; then on `[a, q]` it leaves the payload `[q]` and the
cache still `(s, p)`. None of the three calls panics, and each returns when
the file on disk can be opened. -/
theorem scenario_A_B_C (env : Env) (rd : streamNonRTSPReadersMap) (more : List Track)
    (closed : Bool) (s p i1 i2 a q : NALU) (rtpA rtpB rtpC : Nat) (ptsA ptsB ptsC : Bool)
    (hs : isSPS s) (hp : isPPS p) (hi1 : isIDR i1) (hi2 : isIDR i2) (ha : isAUD a)
    (hq : q ≠ []) (hqr : retained q = true) (hq5 : ¬ isIDR q) :
    (writeData env ⟨rd, ⟨Track.h264 ⟨[], []⟩ :: more, closed⟩⟩
        ⟨0, rtpA, ptsA, [s, p, i1]⟩).d.h264NALUs = [s, p, i1] ∧
    (writeData env ⟨rd, ⟨Track.h264 ⟨[], []⟩ :: more, closed⟩⟩
        ⟨0, rtpA, ptsA, [s, p, i1]⟩).s = ⟨rd, ⟨Track.h264 ⟨s, p⟩ :: more, closed⟩⟩ ∧
    (writeData env ⟨rd, ⟨Track.h264 ⟨s, p⟩ :: more, closed⟩⟩
        ⟨0, rtpB, ptsB, [i2]⟩).d.h264NALUs = [s, p, i2] ∧
    (writeData env ⟨rd, ⟨Track.h264 ⟨s, p⟩ :: more, closed⟩⟩
        ⟨0, rtpB, ptsB, [i2]⟩).s = ⟨rd, ⟨Track.h264 ⟨s, p⟩ :: more, closed⟩⟩ ∧
    (writeData env ⟨rd, ⟨Track.h264 ⟨s, p⟩ :: more, closed⟩⟩
        ⟨0, rtpC, ptsC, [a, q]⟩).d.h264NALUs = [q] ∧
    (writeData env ⟨rd, ⟨Track.h264 ⟨s, p⟩ :: more, closed⟩⟩
        ⟨0, rtpC, ptsC, [a, q]⟩).s = ⟨rd, ⟨Track.h264 ⟨s, p⟩ :: more, closed⟩⟩ ∧
    (writeData env ⟨rd, ⟨Track.h264 ⟨[], []⟩ :: more, closed⟩⟩
        ⟨0, rtpA, ptsA, [s, p, i1]⟩).status ≠ Status.panicked ∧
    (writeData env ⟨rd, ⟨Track.h264 ⟨s, p⟩ :: more, closed⟩⟩
        ⟨0, rtpB, ptsB, [i2]⟩).status ≠ Status.panicked ∧
    (writeData env ⟨rd, ⟨Track.h264 ⟨s, p⟩ :: more, closed⟩⟩
        ⟨0, rtpC, ptsC, [a, q]⟩).status ≠ Status.panicked ∧
    (env.openFile = true →
      (writeData env ⟨rd, ⟨Track.h264 ⟨[], []⟩ :: more, closed⟩⟩
          ⟨0, rtpA, ptsA, [s, p, i1]⟩).status = Status.returned ∧
      (writeData env ⟨rd, ⟨Track.h264 ⟨s, p⟩ :: more, closed⟩⟩
          ⟨0, rtpB, ptsB, [i2]⟩).status = Status.returned ∧
      (writeData env ⟨rd, ⟨Track.h264 ⟨s, p⟩ :: more, closed⟩⟩
          ⟨0, rtpC, ptsC, [a, q]⟩).status = Status.returned) := by
  have es : naluTyp s = some NALUTypeSPS := hs
  have ep : naluTyp p = some NALUTypePPS := hp
  have e1 : naluTyp i1 = some NALUTypeIDR := hi1
  have e2 : naluTyp i2 = some NALUTypeIDR := hi2
  have ea : naluTyp a = some NALUTypeAccessUnitDelimiter := ha
  have hqk : ¬ (isSPS q ∨ isPPS q ∨ isAUD q) := by simpa [retained] using hqr
  have hnA : ∀ n ∈ [s, p, i1], n ≠ [] := by
    intro n hn
    simp only [List.mem_cons, List.mem_singleton, List.not_mem_nil, or_false] at hn
    rcases hn with rfl | rfl | rfl
    · exact naluTyp_ne_nil es
    · exact naluTyp_ne_nil ep
    · exact naluTyp_ne_nil e1
  have hnB : ∀ n ∈ [i2], n ≠ [] := by
    intro n hn
    simp only [List.mem_singleton] at hn
    subst hn
    exact naluTyp_ne_nil e2
  have hnC : ∀ n ∈ [a, q], n ≠ [] := by
    intro n hn
    simp only [List.mem_cons, List.mem_singleton, List.not_mem_nil, or_false] at hn
    rcases hn with rfl | rfl
    · exact naluTyp_ne_nil ea
    · exact hq
  have fA : [s, p, i1].foldl cacheStep ⟨[], []⟩ = ⟨s, p⟩ := by
    simp [cacheStep, isSPS, isPPS, es, ep, e1, NALUTypeIDR, NALUTypeSPS, NALUTypePPS]
  have fB : [i2].foldl cacheStep ⟨s, p⟩ = ⟨s, p⟩ := by
    simp [cacheStep, isSPS, isPPS, e2, NALUTypeIDR, NALUTypeSPS, NALUTypePPS]
  have fC : [a, q].foldl cacheStep ⟨s, p⟩ = ⟨s, p⟩ := by
    have h7 : ¬ isSPS q := fun h => hqk (Or.inl h)
    have h8 : ¬ isPPS q := fun h => hqk (Or.inr (Or.inl h))
    have a7 : ¬ isSPS a := by simp [isSPS, ea, NALUTypeAccessUnitDelimiter, NALUTypeSPS]
    have a8 : ¬ isPPS a := by simp [isPPS, ea, NALUTypeAccessUnitDelimiter, NALUTypePPS]
    simp only [List.foldl_cons, List.foldl_nil, cacheStep_of_not _ _ a7 a8,
      cacheStep_of_not _ _ h7 h8]
  have rA : [s, p, i1].flatMap (refSegment ⟨s, p⟩) = [s, p, i1] := by
    simp [refSegment, isSPS, isPPS, isAUD, isIDR, es, ep, e1, NALUTypeIDR, NALUTypeSPS,
      NALUTypePPS, NALUTypeAccessUnitDelimiter]
  have rB : [i2].flatMap (refSegment ⟨s, p⟩) = [s, p, i2] := by
    simp [refSegment, isSPS, isPPS, isAUD, isIDR, e2, NALUTypeIDR, NALUTypeSPS,
      NALUTypePPS, NALUTypeAccessUnitDelimiter]
  have rC : [a, q].flatMap (refSegment ⟨s, p⟩) = [q] := by
    simp only [List.flatMap_cons, List.flatMap_nil, List.append_nil]
    rw [refSegment, if_pos (Or.inr (Or.inr ha)), refSegment, if_neg hqk, if_neg hq5]
    rfl
  have wA := writeData_h264 env ⟨rd, ⟨Track.h264 ⟨[], []⟩ :: more, closed⟩⟩
    ⟨0, rtpA, ptsA, [s, p, i1]⟩ ⟨[], []⟩ (by simp [trackAt]) hnA
  have wB := writeData_h264 env ⟨rd, ⟨Track.h264 ⟨s, p⟩ :: more, closed⟩⟩
    ⟨0, rtpB, ptsB, [i2]⟩ ⟨s, p⟩ (by simp [trackAt]) hnB
  have wC := writeData_h264 env ⟨rd, ⟨Track.h264 ⟨s, p⟩ :: more, closed⟩⟩
    ⟨0, rtpC, ptsC, [a, q]⟩ ⟨s, p⟩ (by simp [trackAt]) hnC
  simp only [fA, rA] at wA
  simp only [fB, rB] at wB
  simp only [fC, rC] at wC
  rw [wA, wB, wC]
  refine ⟨rfl, rfl, rfl, rfl, rfl, rfl, forward_status _ _ _, forward_status _ _ _,
    forward_status _ _ _, ?_⟩
  intro ho
  exact ⟨forward_returned _ _ _ (Or.inl ho), forward_returned _ _ _ (Or.inl ho),
    forward_returned _ _ _ (Or.inl ho)⟩

/-- Witness of C2 with two-byte units and a stream with one registered
reader. -/
theorem scenario_A_B_C_witness :
    (writeData ⟨true, fun _ => none⟩ ⟨⟨some [⟨7, false⟩]⟩, ⟨[Track.h264 ⟨[0x67, 1], [0x68, 2]⟩], false⟩⟩
        ⟨0, 12, true, [[0x09, 0xF0], [0x41, 5]]⟩).d.h264NALUs = [[0x41, 5]] :=
  (scenario_A_B_C ⟨true, fun _ => none⟩ ⟨some [⟨7, false⟩]⟩ [] false
    [0x67, 1] [0x68, 2] [0x65, 3] [0x65, 4] [0x09, 0xF0] [0x41, 5] 10 11 12 true true true
    (by decide) (by decide) (by decide) (by decide) (by decide) (by decide) (by decide)
    (by decide)).2.2.2.2.1

/-- C1, refuted as stated: with an SPS and a PPS cached, the sample made of an
SEI unit followed by an IDR gets the pair injected before the IDR, after the
SEI, so the payload does not start with the SPS. -/
theorem idr_pair_counterexample :
    (writeData ⟨true, fun _ => none⟩ (newStream [Track.h264 ⟨[0x67, 1], [0x68, 2]⟩])
        ⟨0, 0, true, [[0x06, 9], [0x65, 3]]⟩).d.h264NALUs =
      [[0x06, 9], [0x67, 1], [0x68, 2], [0x65, 3]] ∧
    startsWithPair (writeData ⟨true, fun _ => none⟩
        (newStream [Track.h264 ⟨[0x67, 1], [0x68, 2]⟩])
        ⟨0, 0, true, [[0x06, 9], [0x65, 3]]⟩).d.h264NALUs = false := by
  decide

/-- C1, amended. For an H264 sample of non-empty NALUs that contains an IDR,
on a track whose cached SPS and PPS are both non-empty, the payload left by
`writeData` is: the units of the sample before its first IDR that are neither
parameter sets nor delimiters, then the cached SPS, then the cached PPS, then
that IDR, then the rest. The two cached values are those after the update;
they are non-empty, and of SPS and PPS type when the values cached before
were. When no retained unit precedes the first IDR, the payload starts with
the SPS, the PPS and the IDR. -/
theorem idr_preceded_by_cached_pair (env : Env) (st : stream) (d : data) (h : TrackH264)
    (ht : trackAt st.rtspStream.tracks d.trackID = some (Track.h264 h))
    (hne : ∀ n ∈ d.h264NALUs, n ≠ [])
    (hidr : ∃ n ∈ d.h264NALUs, isIDR n)
    (hs : h.sps ≠ []) (hp : h.pps ≠ []) :
    ∃ c idr tail,
      trackAt (writeData env st d).s.rtspStream.tracks d.trackID = some (Track.h264 c) ∧
      d.h264NALUs.dropWhile (fun n => decide (¬ isIDR n)) = idr :: tail ∧
      isIDR idr ∧
      (writeData env st d).d.h264NALUs =
        (d.h264NALUs.takeWhile (fun n => decide (¬ isIDR n))).filter retained ++
          c.sps :: c.pps :: idr :: tail.flatMap (refSegment c) ∧
      c.sps ≠ [] ∧ c.pps ≠ [] ∧
      (isSPS h.sps → isSPS c.sps) ∧ (isPPS h.pps → isPPS c.pps) ∧
      (∀ x ∈ (d.h264NALUs.takeWhile (fun n => decide (¬ isIDR n))).filter retained,
        ¬ isIDR x ∧ ¬ isSPS x ∧ ¬ isPPS x ∧ ¬ isAUD x) ∧
      (isSPS h.sps → isPPS h.pps →
        (∀ n ∈ d.h264NALUs.takeWhile (fun n => decide (¬ isIDR n)), retained n = false) →
        startsWithPair (writeData env st d).d.h264NALUs = true) ∧
      (writeData env st d).status ≠ Status.panicked := by
  obtain ⟨idr, tail, hd, hi, hl, hpre⟩ := split_first_idr d.h264NALUs hidr
  have hw := writeData_h264 env st d h ht hne
  have hc7 : (d.h264NALUs.foldl cacheStep h).sps ≠ [] ∧
      (isSPS h.sps → isSPS (d.h264NALUs.foldl cacheStep h).sps) := by
    rcases foldl_cacheStep_sps h d.h264NALUs with e | ⟨n, _, h7, e⟩
    · rw [e]; exact ⟨hs, id⟩
    · rw [e]; exact ⟨naluTyp_ne_nil h7, fun _ => h7⟩
  have hc8 : (d.h264NALUs.foldl cacheStep h).pps ≠ [] ∧
      (isPPS h.pps → isPPS (d.h264NALUs.foldl cacheStep h).pps) := by
    rcases foldl_cacheStep_pps h d.h264NALUs with e | ⟨n, _, h8, e⟩
    · rw [e]; exact ⟨hp, id⟩
    · rw [e]; exact ⟨naluTyp_ne_nil h8, fun _ => h8⟩
  have hpay : (writeData env st d).d.h264NALUs =
      (d.h264NALUs.takeWhile (fun n => decide (¬ isIDR n))).filter retained ++
        (d.h264NALUs.foldl cacheStep h).sps :: (d.h264NALUs.foldl cacheStep h).pps :: idr ::
          tail.flatMap (refSegment (d.h264NALUs.foldl cacheStep h)) := by
    have gen : ∀ c : TrackH264, d.h264NALUs.flatMap (refSegment c) =
        (d.h264NALUs.takeWhile (fun n => decide (¬ isIDR n))).filter retained ++
          c.sps :: c.pps :: idr :: tail.flatMap (refSegment c) := by
      intro c
      conv_lhs => rw [hl]
      rw [List.flatMap_append, List.flatMap_cons, flatMap_refSegment_noIDR _ _ hpre,
        refSegment_idr _ _ hi]
      rfl
    rw [hw, forward_d]
    exact gen _
  refine ⟨d.h264NALUs.foldl cacheStep h, idr, tail, ?_, hd, hi, hpay, hc7.1, hc8.1, hc7.2,
    hc8.2, ?_, ?_, ?_⟩
  · rw [hw, forward_s]
    exact trackAt_withTrack st d.trackID _ _ ht
  · intro x hx
    obtain ⟨hx1, hx2⟩ := List.mem_filter.1 hx
    have hk : ¬ (isSPS x ∨ isPPS x ∨ isAUD x) := by simpa [retained] using hx2
    exact ⟨hpre x hx1, fun a => hk (Or.inl a), fun a => hk (Or.inr (Or.inl a)),
      fun a => hk (Or.inr (Or.inr a))⟩
  · intro t7 t8 hnone
    have hnil : (d.h264NALUs.takeWhile (fun n => decide (¬ isIDR n))).filter retained = [] := by
      rw [List.filter_eq_nil_iff]
      intro a ha
      simp [hnone a ha]
    rw [hpay, hnil]
    simp only [List.nil_append, startsWithPair, Bool.and_eq_true, decide_eq_true_eq]
    exact ⟨⟨hc7.2 t7, hc8.2 t8⟩, hi⟩
  · rw [hw]
    exact forward_status _ _ _

/-- Witness of C1 amended: a delimiter, a new SPS, an IDR and a slice, on a
track with an SPS and a PPS cached; the new SPS is the one injected. -/
theorem idr_preceded_by_cached_pair_witness :
    ∃ c idr tail,
      trackAt (writeData ⟨true, fun _ => none⟩ (newStream [Track.h264 ⟨[0x67, 1], [0x68, 2]⟩])
        ⟨0, 0, true, [[0x09], [0x67, 7], [0x65, 3], [0x41, 4]]⟩).s.rtspStream.tracks 0 =
          some (Track.h264 c) ∧
      ([[0x09], [0x67, 7], [0x65, 3], [0x41, 4]] : List NALU).dropWhile
        (fun n => decide (¬ isIDR n)) = idr :: tail ∧
      isIDR idr ∧
      (writeData ⟨true, fun _ => none⟩ (newStream [Track.h264 ⟨[0x67, 1], [0x68, 2]⟩])
        ⟨0, 0, true, [[0x09], [0x67, 7], [0x65, 3], [0x41, 4]]⟩).d.h264NALUs =
        (([[0x09], [0x67, 7], [0x65, 3], [0x41, 4]] : List NALU).takeWhile
          (fun n => decide (¬ isIDR n))).filter retained ++
          c.sps :: c.pps :: idr :: tail.flatMap (refSegment c) :=
  let ⟨c, idr, tail, h1, h2, h3, h4, _⟩ :=
    idr_preceded_by_cached_pair ⟨true, fun _ => none⟩
      (newStream [Track.h264 ⟨[0x67, 1], [0x68, 2]⟩])
      ⟨0, 0, true, [[0x09], [0x67, 7], [0x65, 3], [0x41, 4]]⟩ ⟨[0x67, 1], [0x68, 2]⟩
      (by decide) (by decide) (by decide) (by decide) (by decide)
  ⟨c, idr, tail, h1, h2, h3, h4⟩

/-- C3, refuted as stated: from a new stream with an empty cache, the sample
made of an SPS and an IDR leaves the payload SPS, empty slice, IDR: the SPS is
followed by the empty PPS value of the cache, not by a PPS-typed unit. -/
theorem framing_counterexample :
    Reachable (newStream [Track.h264 ⟨[], []⟩]) ∧
    (writeData ⟨true, fun _ => none⟩ (newStream [Track.h264 ⟨[], []⟩])
        ⟨0, 0, true, [[0x67, 1], [0x65, 3]]⟩).d.h264NALUs = [[0x67, 1], [], [0x65, 3]] ∧
    ¬ FramedStrict (writeData ⟨true, fun _ => none⟩ (newStream [Track.h264 ⟨[], []⟩])
        ⟨0, 0, true, [[0x67, 1], [0x65, 3]]⟩).d.h264NALUs := by
  have hpay : (writeData ⟨true, fun _ => none⟩ (newStream [Track.h264 ⟨[], []⟩])
      ⟨0, 0, true, [[0x67, 1], [0x65, 3]]⟩).d.h264NALUs = [[0x67, 1], [], [0x65, 3]] := by
    decide
  refine ⟨Reachable.init _ (by intro t ht h e; simp at ht; subst ht; cases e; rfl), hpay, ?_⟩
  rw [hpay]
  intro hF
  obtain ⟨y, z, h1, h8, _⟩ := (hF 0 [0x67, 1] rfl).2.1 (by decide)
  have e : y = [] := by simpa using h1.symm
  subst e
  exact absurd h8 (by decide)

/-- C3, amended. For a stream reached from empty caches by `writeData` calls,
with any registrations, removals and closing in between, or more generally
for any stream whose cache on the sample's track is well typed (the caches a
sequence of `writeData` calls can leave on an empty one are exactly these),
and an H264 sample of non-empty NALUs, the payload left by `writeData` holds
no delimiter; every SPS-typed element of it is the cached SPS, immediately
followed by the cached PPS value (a PPS unit, or the empty value when no PPS
was observed yet) and then by an IDR unit; every PPS-typed element is the
cached PPS, immediately preceded by the cached SPS value (an SPS unit, or the
empty value) and followed by an IDR unit. When both cached values are
non-empty after the update, the framing holds as first stated. -/
theorem payload_framed (env : Env) (st : stream) (d : data) (h : TrackH264)
    (hr : Reachable st ∨ wellTyped h)
    (ht : trackAt st.rtspStream.tracks d.trackID = some (Track.h264 h))
    (hne : ∀ n ∈ d.h264NALUs, n ≠ []) :
    ∃ c, trackAt (writeData env st d).s.rtspStream.tracks d.trackID = some (Track.h264 c) ∧
      wellTyped c ∧
      Framed c (writeData env st d).d.h264NALUs ∧
      (c.sps ≠ [] → c.pps ≠ [] → FramedStrict (writeData env st d).d.h264NALUs) := by
  have hw0 : wellTyped h :=
    hr.elim (fun a => reachable_wellTyped st a _ (trackAt_mem _ _ _ ht) h rfl) id
  have hw := writeData_h264 env st d h ht hne
  have hc : wellTyped (d.h264NALUs.foldl cacheStep h) := by
    rw [← (update_spec h d.h264NALUs hne).1]
    exact update_wellTyped h _ hw0
  have hF : Framed (d.h264NALUs.foldl cacheStep h) (writeData env st d).d.h264NALUs := by
    rw [hw, forward_d]
    exact Framed_flatMap _ _ hc
  refine ⟨d.h264NALUs.foldl cacheStep h, ?_, hc, hF, fun hs hp => Framed_strict _ _ hF hc hs hp⟩
  rw [hw, forward_s]
  exact trackAt_withTrack st d.trackID _ _ ht

/-- Witness of C3 amended: a stream with a registered reader, reached from a
new stream by `readerAdd`, and a sample with an SPS, a delimiter, an IDR and a
slice. -/
theorem payload_framed_witness :
    ∃ c, trackAt (writeData ⟨true, fun _ => none⟩
          ⟨⟨some [⟨1, false⟩]⟩, ⟨[Track.h264 ⟨[], []⟩], false⟩⟩
          ⟨0, 0, true, [[0x67, 1], [0x09], [0x65, 3], [0x41, 4]]⟩).s.rtspStream.tracks 0 =
          some (Track.h264 c) ∧
      wellTyped c ∧
      Framed c (writeData ⟨true, fun _ => none⟩
          ⟨⟨some [⟨1, false⟩]⟩, ⟨[Track.h264 ⟨[], []⟩], false⟩⟩
          ⟨0, 0, true, [[0x67, 1], [0x09], [0x65, 3], [0x41, 4]]⟩).d.h264NALUs :=
  let ⟨c, h1, h2, h3, _⟩ :=
    payload_framed ⟨true, fun _ => none⟩
      ⟨⟨some [⟨1, false⟩]⟩, ⟨[Track.h264 ⟨[], []⟩], false⟩⟩
      ⟨0, 0, true, [[0x67, 1], [0x09], [0x65, 3], [0x41, 4]]⟩ ⟨[], []⟩
      (Or.inl (Reachable.readerAdd (newStream [Track.h264 ⟨[], []⟩]) ⟨1, false⟩ _
        (Reachable.init _ (by intro t ht h e; simp at ht; subst ht; cases e; rfl))
        (by decide)))
      (by decide) (by decide)
  ⟨c, h1, h2, h3⟩

/-- C5, refuted as stated: on an empty cache, for the sample IDR, SPS, PPS,
the two passes of `writeData` inject the SPS and PPS of that same sample
before the IDR, while the single pass of the specification injects the two
empty values cached when the IDR is met. -/
theorem two_pass_counterexample :
    (writeData ⟨true, fun _ => none⟩ (newStream [Track.h264 ⟨[], []⟩])
        ⟨0, 0, true, [[0x65, 3], [0x67, 1], [0x68, 2]]⟩).d.h264NALUs =
      [[0x67, 1], [0x68, 2], [0x65, 3]] ∧
    (specSinglePass ⟨[], []⟩ [[0x65, 3], [0x67, 1], [0x68, 2]]).2 = [[], [], [0x65, 3]] ∧
    (writeData ⟨true, fun _ => none⟩ (newStream [Track.h264 ⟨[], []⟩])
        ⟨0, 0, true, [[0x65, 3], [0x67, 1], [0x68, 2]]⟩).d.h264NALUs ≠
      (specSinglePass ⟨[], []⟩ [[0x65, 3], [0x67, 1], [0x68, 2]]).2 := by
  decide

/-- C5, amended. For every cache and every H264 sample of non-empty NALUs,
the two passes of `writeData` leave the same final cache as the single pass
of the specification, and the same output sequence whenever no SPS or PPS unit
of the sample comes after an IDR unit of it. -/
theorem two_pass_refines_single_pass (env : Env) (st : stream) (d : data) (h : TrackH264)
    (ht : trackAt st.rtspStream.tracks d.trackID = some (Track.h264 h))
    (hne : ∀ n ∈ d.h264NALUs, n ≠ []) :
    trackAt (writeData env st d).s.rtspStream.tracks d.trackID =
        some (Track.h264 (specSinglePass h d.h264NALUs).1) ∧
    (updateH264TrackParameters h d.h264NALUs).track = (specSinglePass h d.h264NALUs).1 ∧
    (noParamAfterIDR d.h264NALUs →
      (writeData env st d).d.h264NALUs = (specSinglePass h d.h264NALUs).2) ∧
    (writeData env st d).status ≠ Status.panicked := by
  have hw := writeData_h264 env st d h ht hne
  refine ⟨?_, ?_, ?_, ?_⟩
  · rw [hw, forward_s, specSinglePass_fst]
    exact trackAt_withTrack st d.trackID _ _ ht
  · rw [(update_spec h d.h264NALUs hne).1, specSinglePass_fst]
  · intro hno
    rw [hw, forward_d, specSinglePass_snd h _ hno]
  · rw [hw]
    exact forward_status _ _ _

/-- Witness of C5 amended: a sample with a new SPS and PPS ahead of its IDR,
on a track with older values cached. -/
theorem two_pass_refines_single_pass_witness :
    (writeData ⟨true, fun _ => none⟩ (newStream [Track.h264 ⟨[0x67, 1], [0x68, 2]⟩])
        ⟨0, 0, true, [[0x67, 7], [0x68, 8], [0x65, 3], [0x41, 4]]⟩).d.h264NALUs =
      (specSinglePass ⟨[0x67, 1], [0x68, 2]⟩ [[0x67, 7], [0x68, 8], [0x65, 3], [0x41, 4]]).2 :=
  (two_pass_refines_single_pass ⟨true, fun _ => none⟩
    (newStream [Track.h264 ⟨[0x67, 1], [0x68, 2]⟩])
    ⟨0, 0, true, [[0x67, 7], [0x68, 8], [0x65, 3], [0x41, 4]]⟩ ⟨[0x67, 1], [0x68, 2]⟩
    (by decide) (by decide)).2.2.1 (by decide)

/-- C8. For every cache and every H264 sample of non-empty NALUs: at each
NALU the update either keeps the cached SPS or replaces it by that NALU, which
is then a non-empty unit of SPS type different from the value it replaces; so
the final cached SPS is the previous one or such a unit of the sample; a
non-empty cached SPS stays non-empty and a changed one has SPS type. The same
holds for the PPS. The cache that `writeData` leaves is the one the update
left: the remuxer writes no cache value. -/
theorem cache_replacement_rule (env : Env) (st : stream) (d : data) (h : TrackH264)
    (ht : trackAt st.rtspStream.tracks d.trackID = some (Track.h264 h))
    (hne : ∀ n ∈ d.h264NALUs, n ≠ []) :
    (∀ pre n post, d.h264NALUs = pre ++ n :: post →
      ((updateH264TrackParameters h (pre ++ [n])).track.sps =
          (updateH264TrackParameters h pre).track.sps ∨
        ((updateH264TrackParameters h (pre ++ [n])).track.sps = n ∧ isSPS n ∧ n ≠ [] ∧
          n ≠ (updateH264TrackParameters h pre).track.sps)) ∧
      ((updateH264TrackParameters h (pre ++ [n])).track.pps =
          (updateH264TrackParameters h pre).track.pps ∨
        ((updateH264TrackParameters h (pre ++ [n])).track.pps = n ∧ isPPS n ∧ n ≠ [] ∧
          n ≠ (updateH264TrackParameters h pre).track.pps))) ∧
    ((updateH264TrackParameters h d.h264NALUs).track.sps = h.sps ∨
      ∃ pre post,
        d.h264NALUs = pre ++ (updateH264TrackParameters h d.h264NALUs).track.sps :: post ∧
        isSPS (updateH264TrackParameters h d.h264NALUs).track.sps ∧
        (updateH264TrackParameters h d.h264NALUs).track.sps ≠ [] ∧
        (updateH264TrackParameters h d.h264NALUs).track.sps ≠
          (updateH264TrackParameters h pre).track.sps) ∧
    ((updateH264TrackParameters h d.h264NALUs).track.pps = h.pps ∨
      ∃ pre post,
        d.h264NALUs = pre ++ (updateH264TrackParameters h d.h264NALUs).track.pps :: post ∧
        isPPS (updateH264TrackParameters h d.h264NALUs).track.pps ∧
        (updateH264TrackParameters h d.h264NALUs).track.pps ≠ [] ∧
        (updateH264TrackParameters h d.h264NALUs).track.pps ≠
          (updateH264TrackParameters h pre).track.pps) ∧
    (h.sps ≠ [] → (updateH264TrackParameters h d.h264NALUs).track.sps ≠ []) ∧
    (h.pps ≠ [] → (updateH264TrackParameters h d.h264NALUs).track.pps ≠ []) ∧
    ((updateH264TrackParameters h d.h264NALUs).track.sps ≠ h.sps →
      isSPS (updateH264TrackParameters h d.h264NALUs).track.sps) ∧
    ((updateH264TrackParameters h d.h264NALUs).track.pps ≠ h.pps →
      isPPS (updateH264TrackParameters h d.h264NALUs).track.pps) ∧
    trackAt (writeData env st d).s.rtspStream.tracks d.trackID =
      some (Track.h264 (updateH264TrackParameters h d.h264NALUs).track) ∧
    (writeData env st d).s =
      st.withTrack d.trackID (Track.h264 (updateH264TrackParameters h d.h264NALUs).track) := by
  have hsplit : ∀ pre n post, d.h264NALUs = pre ++ n :: post →
      (∀ m ∈ pre, m ≠ []) ∧ n ≠ [] := by
    intro pre n post e
    constructor
    · intro m hm
      exact hne m (by rw [e]; exact List.mem_append_left _ hm)
    · exact hne n (by rw [e]; simp)
  have hF := (update_spec h d.h264NALUs hne).1
  have hS := foldl_sps_origin h d.h264NALUs
  have hP := foldl_pps_origin h d.h264NALUs
  rw [← hF] at hS hP
  have hS2 : (updateH264TrackParameters h d.h264NALUs).track.sps = h.sps ∨
      ∃ pre post,
        d.h264NALUs = pre ++ (updateH264TrackParameters h d.h264NALUs).track.sps :: post ∧
        isSPS (updateH264TrackParameters h d.h264NALUs).track.sps ∧
        (updateH264TrackParameters h d.h264NALUs).track.sps ≠ [] ∧
        (updateH264TrackParameters h d.h264NALUs).track.sps ≠
          (updateH264TrackParameters h pre).track.sps := by
    rcases hS with e | ⟨pre, post, e, h7, hd⟩
    · exact Or.inl e
    · refine Or.inr ⟨pre, post, e, h7, naluTyp_ne_nil h7, ?_⟩
      rw [(update_spec h pre (hsplit pre _ post e).1).1]
      exact hd
  have hP2 : (updateH264TrackParameters h d.h264NALUs).track.pps = h.pps ∨
      ∃ pre post,
        d.h264NALUs = pre ++ (updateH264TrackParameters h d.h264NALUs).track.pps :: post ∧
        isPPS (updateH264TrackParameters h d.h264NALUs).track.pps ∧
        (updateH264TrackParameters h d.h264NALUs).track.pps ≠ [] ∧
        (updateH264TrackParameters h d.h264NALUs).track.pps ≠
          (updateH264TrackParameters h pre).track.pps := by
    rcases hP with e | ⟨pre, post, e, h8, hd⟩
    · exact Or.inl e
    · refine Or.inr ⟨pre, post, e, h8, naluTyp_ne_nil h8, ?_⟩
      rw [(update_spec h pre (hsplit pre _ post e).1).1]
      exact hd
  refine ⟨?_, hS2, hP2, ?_, ?_, ?_, ?_, ?_, writeData_s_h264 env st d h ht⟩
  · intro pre n post e
    obtain ⟨hpre, hn⟩ := hsplit pre n post e
    have hpn : ∀ m ∈ pre ++ [n], m ≠ [] := by
      intro m hm
      rcases List.mem_append.1 hm with a | a
      · exact hpre m a
      · rw [List.mem_singleton.1 a]; exact hn
    rw [(update_spec h _ hpn).1, (update_spec h pre hpre).1, List.foldl_append,
      List.foldl_cons, List.foldl_nil]
    constructor
    · rcases cacheStep_sps (pre.foldl cacheStep h) n with ⟨e1, _⟩ | ⟨e1, h7⟩
      · exact Or.inl e1
      · by_cases hd : n = (pre.foldl cacheStep h).sps
        · exact Or.inl (e1.trans hd)
        · exact Or.inr ⟨e1, h7, hn, hd⟩
    · rcases cacheStep_pps (pre.foldl cacheStep h) n with ⟨e1, _⟩ | ⟨e1, h8⟩
      · exact Or.inl e1
      · by_cases hd : n = (pre.foldl cacheStep h).pps
        · exact Or.inl (e1.trans hd)
        · exact Or.inr ⟨e1, h8, hn, hd⟩
  · intro h0
    rcases hS2 with e | ⟨_, _, _, _, hn, _⟩
    · rw [e]; exact h0
    · exact hn
  · intro h0
    rcases hP2 with e | ⟨_, _, _, _, hn, _⟩
    · rw [e]; exact h0
    · exact hn
  · intro hd
    rcases hS2 with e | ⟨_, _, _, h7, _, _⟩
    · exact absurd e hd
    · exact h7
  · intro hd
    rcases hP2 with e | ⟨_, _, _, h8, _, _⟩
    · exact absurd e hd
    · exact h8
  · rw [writeData_s_h264 env st d h ht]
    exact trackAt_withTrack st d.trackID _ _ ht

/-- Witness of C8: a sample that repeats the cached SPS, brings a new PPS and
an IDR; the SPS stays and the PPS is replaced. -/
theorem cache_replacement_rule_witness :
    (writeData ⟨true, fun _ => none⟩ (newStream [Track.h264 ⟨[0x67, 1], [0x68, 2]⟩])
        ⟨0, 0, true, [[0x67, 1], [0x68, 9], [0x65, 3]]⟩).s =
      (newStream [Track.h264 ⟨[0x67, 1], [0x68, 2]⟩]).withTrack 0
        (Track.h264 (updateH264TrackParameters ⟨[0x67, 1], [0x68, 2]⟩
          [[0x67, 1], [0x68, 9], [0x65, 3]]).track) :=
  (cache_replacement_rule ⟨true, fun _ => none⟩
    (newStream [Track.h264 ⟨[0x67, 1], [0x68, 2]⟩])
    ⟨0, 0, true, [[0x67, 1], [0x68, 9], [0x65, 3]]⟩ ⟨[0x67, 1], [0x68, 2]⟩
    (by decide) (by decide)).2.2.2.2.2.2.2.2

/-- C7, refuted as stated: a second sample with the same SPS and a new PPS
makes a `SafeSetPPS` call and changes the cache; and when the first sample
holds a zero-length NALU ahead of the SPS, the update panics before caching
it. -/
theorem caching_counterexample :
    (updateH264TrackParameters ⟨[0x67, 1], [0x68, 2]⟩ [[0x67, 7]]).track.sps = [0x67, 7] ∧
    (updateH264TrackParameters
      (updateH264TrackParameters ⟨[0x67, 1], [0x68, 2]⟩ [[0x67, 7]]).track
      [[0x67, 7], [0x68, 9]]).sets = [SetCall.pps [0x68, 9]] ∧
    (updateH264TrackParameters
      (updateH264TrackParameters ⟨[0x67, 1], [0x68, 2]⟩ [[0x67, 7]]).track
      [[0x67, 7], [0x68, 9]]).track ≠
      (updateH264TrackParameters ⟨[0x67, 1], [0x68, 2]⟩ [[0x67, 7]]).track ∧
    (updateH264TrackParameters ⟨[0x67, 1], [0x68, 2]⟩ [[], [0x67, 7]]).completed = false ∧
    (updateH264TrackParameters ⟨[0x67, 1], [0x68, 2]⟩ [[], [0x67, 7]]).track.sps ≠
      [0x67, 7] := by
  decide

/-- C7, amended. Parameter caching is idempotent per kind. For every cache and
SPS unit `s`, after the update on a sample `A` of non-empty NALUs whose SPS
units are all `s` (and that has one) the cached SPS is `s`; a second update
on a sample `B` of the same kind makes no `SafeSetSPS` call and leaves the
cached SPS at `s`, and makes no setter call at all and leaves the whole cache
alone when `B` brings no PPS other than the cached one; the first update makes exactly one `SafeSetSPS` call, with `s`, when the
SPS cached before differs from `s`, and none otherwise. The same holds for the
PPS, with `SafeSetPPS`. -/
theorem caching_idempotent :
    (∀ (h : TrackH264) (s : NALU) (A B : List NALU), isSPS s →
      (∀ n ∈ A, n ≠ []) → (∀ n ∈ B, n ≠ []) →
      s ∈ A → (∀ n ∈ A, isSPS n → n = s) → s ∈ B → (∀ n ∈ B, isSPS n → n = s) →
      (updateH264TrackParameters h A).track.sps = s ∧
      spsSets (updateH264TrackParameters (updateH264TrackParameters h A).track B).sets = [] ∧
      (updateH264TrackParameters (updateH264TrackParameters h A).track B).track.sps = s ∧
      ((∀ n ∈ B, isPPS n → n = (updateH264TrackParameters h A).track.pps) →
        (updateH264TrackParameters (updateH264TrackParameters h A).track B).sets = [] ∧
        (updateH264TrackParameters (updateH264TrackParameters h A).track B).track =
          (updateH264TrackParameters h A).track) ∧
      (h.sps ≠ s →
        spsSets ((updateH264TrackParameters h A).sets ++
          (updateH264TrackParameters (updateH264TrackParameters h A).track B).sets) = [s]) ∧
      (h.sps = s → spsSets (updateH264TrackParameters h A).sets = [])) ∧
    (∀ (h : TrackH264) (p : NALU) (A B : List NALU), isPPS p →
      (∀ n ∈ A, n ≠ []) → (∀ n ∈ B, n ≠ []) →
      p ∈ A → (∀ n ∈ A, isPPS n → n = p) → p ∈ B → (∀ n ∈ B, isPPS n → n = p) →
      (updateH264TrackParameters h A).track.pps = p ∧
      ppsSets (updateH264TrackParameters (updateH264TrackParameters h A).track B).sets = [] ∧
      (updateH264TrackParameters (updateH264TrackParameters h A).track B).track.pps = p ∧
      ((∀ n ∈ B, isSPS n → n = (updateH264TrackParameters h A).track.sps) →
        (updateH264TrackParameters (updateH264TrackParameters h A).track B).sets = [] ∧
        (updateH264TrackParameters (updateH264TrackParameters h A).track B).track =
          (updateH264TrackParameters h A).track) ∧
      (h.pps ≠ p →
        ppsSets ((updateH264TrackParameters h A).sets ++
          (updateH264TrackParameters (updateH264TrackParameters h A).track B).sets) = [p]) ∧
      (h.pps = p → ppsSets (updateH264TrackParameters h A).sets = [])) := by
  have app7 : ∀ a b : List SetCall, spsSets (a ++ b) = spsSets a ++ spsSets b := by
    intro a b
    induction a with
    | nil => rfl
    | cons x r ih => cases x <;> simp [spsSets, ih]
  have app8 : ∀ a b : List SetCall, ppsSets (a ++ b) = ppsSets a ++ ppsSets b := by
    intro a b
    induction a with
    | nil => rfl
    | cons x r ih => cases x <;> simp [ppsSets, ih]
  constructor
  · intro h s A B hs hA hB hAs hAo hBs hBo
    have hA1 : (updateH264TrackParameters h A).track.sps = s := by
      by_cases hd : h.sps = s
      · exact (update_sps_same h A hA (fun n hn h7 => (hAo n hn h7).trans hd.symm)).2.trans hd
      · exact (update_sps_first h s A hA hs hAs hAo hd).2
    have hBo1 : ∀ n ∈ B, isSPS n → n = (updateH264TrackParameters h A).track.sps :=
      fun n hn h7 => (hBo n hn h7).trans hA1.symm
    obtain ⟨b1, b2⟩ := update_sps_same (updateH264TrackParameters h A).track B hB hBo1
    refine ⟨hA1, b1, b2.trans hA1, ?_, ?_, ?_⟩
    · intro hpp
      exact update_no_set _ B hB hBo1 hpp
    · intro hd
      rw [app7, b1, (update_sps_first h s A hA hs hAs hAo hd).1]
      rfl
    · intro hd
      exact (update_sps_same h A hA (fun n hn h7 => (hAo n hn h7).trans hd.symm)).1
  · intro h p A B hp hA hB hAs hAo hBs hBo
    have hA1 : (updateH264TrackParameters h A).track.pps = p := by
      by_cases hd : h.pps = p
      · exact (update_pps_same h A hA (fun n hn h8 => (hAo n hn h8).trans hd.symm)).2.trans hd
      · exact (update_pps_first h p A hA hp hAs hAo hd).2
    have hBo1 : ∀ n ∈ B, isPPS n → n = (updateH264TrackParameters h A).track.pps :=
      fun n hn h8 => (hBo n hn h8).trans hA1.symm
    obtain ⟨b1, b2⟩ := update_pps_same (updateH264TrackParameters h A).track B hB hBo1
    refine ⟨hA1, b1, b2.trans hA1, ?_, ?_, ?_⟩
    · intro hss
      exact update_no_set _ B hB hss hBo1
    · intro hd
      rw [app8, b1, (update_pps_first h p A hA hp hAs hAo hd).1]
      rfl
    · intro hd
      exact (update_pps_same h A hA (fun n hn h8 => (hAo n hn h8).trans hd.symm)).1

/-- Witness of C7: two samples carrying the same new SPS, on a track caching
an older one; the two updates make one `SafeSetSPS` call in all. -/
theorem caching_idempotent_witness :
    spsSets ((updateH264TrackParameters ⟨[0x67, 1], [0x68, 2]⟩
        [[0x67, 7], [0x65, 3]]).sets ++
      (updateH264TrackParameters (updateH264TrackParameters ⟨[0x67, 1], [0x68, 2]⟩
        [[0x67, 7], [0x65, 3]]).track [[0x09], [0x67, 7], [0x41, 4]]).sets) = [[0x67, 7]] :=
  (caching_idempotent.1 ⟨[0x67, 1], [0x68, 2]⟩ [0x67, 7] [[0x67, 7], [0x65, 3]]
    [[0x09], [0x67, 7], [0x41, 4]] (by decide) (by decide) (by decide) (by decide)
    (by decide) (by decide) (by decide)).2.2.2.2.1 (by decide)

/-! ## Facts about the registry and the forwarding part -/

theorem members_new : newStreamNonRTSPReadersMap.members = [] := rfl

theorem valid_new : newStreamNonRTSPReadersMap.valid := List.nodup_nil

theorem add_members (m m1 : streamNonRTSPReadersMap) (r : reader) (h : m.add r = some m1) :
    m1.ma = some m1.members ∧
    m1.members = (if r ∈ m.members then m.members else m.members ++ [r]) := by
  obtain ⟨ma⟩ := m
  cases ma with
  | none => simp [streamNonRTSPReadersMap.add] at h
  | some l =>
    simp only [streamNonRTSPReadersMap.add, Option.some.injEq] at h
    subst h
    exact ⟨rfl, rfl⟩

theorem add_valid (m m1 : streamNonRTSPReadersMap) (r : reader) (h : m.add r = some m1)
    (hv : m.valid) : m1.valid := by
  unfold streamNonRTSPReadersMap.valid at hv ⊢
  rw [(add_members m m1 r h).2]
  split_ifs with hm
  · exact hv
  · exact List.Nodup.append hv (List.nodup_singleton r) (by
      intro a ha hb
      rw [List.mem_singleton] at hb
      subst hb
      exact hm ha)

theorem remove_members (m : streamNonRTSPReadersMap) (r : reader) :
    (m.remove r).members = m.members.filter (fun c => decide (c ≠ r)) := by
  obtain ⟨ma⟩ := m
  cases ma <;> rfl

theorem remove_valid (m : streamNonRTSPReadersMap) (r : reader) (hv : m.valid) :
    (m.remove r).valid := by
  unfold streamNonRTSPReadersMap.valid at hv ⊢
  rw [remove_members]
  exact hv.filter _

theorem forwardPacketRTP_eq (m : streamNonRTSPReadersMap) (d : data) :
    m.forwardPacketRTP d = m.members.map (fun c => Event.onReaderData c d) := by
  obtain ⟨ma⟩ := m
  cases ma <;> rfl

theorem deliveriesTo_map (c : reader) (d : data) (l : List reader) :
    deliveriesTo c (l.map (fun r => Event.onReaderData r d)) = l.count c := by
  induction l with
  | nil => rfl
  | cons a rest ih =>
    unfold deliveriesTo at ih ⊢
    rw [List.map_cons, List.countP_cons, ih, List.count_cons]
    by_cases e : a = c
    · simp [e]
    · simp [e]

theorem deliveriesTo_append (c : reader) (a b : List Event) :
    deliveriesTo c (a ++ b) = deliveriesTo c a + deliveriesTo c b := by
  unfold deliveriesTo
  exact List.countP_append _ _ _

theorem sinkCalls_append (a b : List Event) :
    sinkCalls (a ++ b) = sinkCalls a + sinkCalls b := by
  unfold sinkCalls
  exact List.countP_append _ _ _

theorem sinkCalls_map (d : data) (l : List reader) :
    sinkCalls (l.map (fun r => Event.onReaderData r d)) = 0 := by
  induction l with
  | nil => rfl
  | cons a rest ih =>
    unfold sinkCalls at ih ⊢
    rw [List.map_cons, List.countP_cons, ih]
    rfl

theorem save_trace (env : Env) (trackID : Int) (pkt : Nat) (pts : Bool) (us : List NALU) :
    sinkCalls (saveToLocalBeforePublishToStream env trackID pkt pts us).trace = 0 ∧
    (∀ c, deliveriesTo c (saveToLocalBeforePublishToStream env trackID pkt pts us).trace = 0) ∧
    (saveToLocalBeforePublishToStream env trackID pkt pts us).trace.filter
      (fun e => !e.isReaderData) =
        (saveToLocalBeforePublishToStream env trackID pkt pts us).trace := by
  unfold saveToLocalBeforePublishToStream
  by_cases h0 : trackID ≠ 0
  · rw [if_pos h0]
    exact ⟨rfl, fun _ => rfl, rfl⟩
  · rw [if_neg h0]
    cases env.openFile with
    | false => exact ⟨rfl, fun _ => rfl, rfl⟩
    | true =>
      cases env.marshalTo pkt with
      | none => exact ⟨rfl, fun _ => rfl, rfl⟩
      | some b => exact ⟨rfl, fun _ => rfl, rfl⟩

theorem forward_trace (env : Env) (st : stream) (d : data) :
    (forward env st d).trace =
      (Event.WritePacketRTP d.trackID d.rtp d.ptsEqualsDTS ::
        st.nonRTSPReaders.members.map (fun c => Event.onReaderData c d)) ++
      (saveToLocalBeforePublishToStream env d.trackID d.rtp d.ptsEqualsDTS d.h264NALUs).trace := by
  unfold forward
  rw [forwardPacketRTP_eq]

theorem forward_counts (env : Env) (st : stream) (d : data) :
    sinkCalls (forward env st d).trace = 1 ∧
    ∀ c, deliveriesTo c (forward env st d).trace = st.nonRTSPReaders.members.count c := by
  obtain ⟨s1, s2, _⟩ :=
    save_trace env d.trackID d.rtp d.ptsEqualsDTS d.h264NALUs
  rw [forward_trace]
  constructor
  · have h0 : sinkCalls (st.nonRTSPReaders.members.map (fun c => Event.onReaderData c d) ++
        (saveToLocalBeforePublishToStream env d.trackID d.rtp d.ptsEqualsDTS
          d.h264NALUs).trace) = 0 := by
      rw [sinkCalls_append, sinkCalls_map, s1]
    unfold sinkCalls at h0 ⊢
    rw [List.cons_append, List.countP_cons, h0]
    rfl
  · intro c
    have h0 : deliveriesTo c (st.nonRTSPReaders.members.map (fun c => Event.onReaderData c d) ++
        (saveToLocalBeforePublishToStream env d.trackID d.rtp d.ptsEqualsDTS
          d.h264NALUs).trace) = st.nonRTSPReaders.members.count c := by
      rw [deliveriesTo_append, deliveriesTo_map, s2 c]
      rfl
    unfold deliveriesTo at h0 ⊢
    rw [List.cons_append, List.countP_cons, h0]
    rfl

theorem count_of_nodup (l : List reader) (c : reader) (hv : l.Nodup) :
    l.count c = if c ∈ l then 1 else 0 := by
  split_ifs with hm
  · exact List.count_eq_one_of_mem hv hm
  · exact List.count_eq_zero_of_not_mem hm

theorem runOps_keeps_out (r : reader) (ops : List ReaderOp)
    (hops : ∀ op ∈ ops, op ≠ ReaderOp.add r) (m m1 : streamNonRTSPReadersMap)
    (hm : r ∉ m.members) (hrun : m.runOps ops = some m1) : r ∉ m1.members := by
  induction ops generalizing m with
  | nil =>
    simp only [streamNonRTSPReadersMap.runOps, Option.some.injEq] at hrun
    subst hrun
    exact hm
  | cons op rest ih =>
    have hrest : ∀ o ∈ rest, o ≠ ReaderOp.add r := fun o ho => hops o (List.mem_cons_of_mem _ ho)
    cases op with
    | add c =>
      have hc : c ≠ r := by
        intro e
        subst e
        exact hops _ (List.mem_cons_self _ _) rfl
      simp only [streamNonRTSPReadersMap.runOps] at hrun
      cases ha : m.add c with
      | none => rw [ha] at hrun; cases hrun
      | some m2 =>
        rw [ha] at hrun
        refine ih hrest m2 ?_ hrun
        rw [(add_members m m2 c ha).2]
        split_ifs
        · exact hm
        · intro hmem
          rcases List.mem_append.1 hmem with a | a
          · exact hm a
          · exact hc (List.mem_singleton.1 a).symm
    | remove c =>
      simp only [streamNonRTSPReadersMap.runOps] at hrun
      refine ih hrest (m.remove c) ?_ hrun
      rw [remove_members]
      intro hmem
      exact hm (List.mem_filter.1 hmem).1

theorem deliveriesTo_non_member (m : streamNonRTSPReadersMap) (r : reader) (d : data)
    (hr : r ∉ m.members) : deliveriesTo r (m.forwardPacketRTP d) = 0 := by
  rw [forwardPacketRTP_eq, deliveriesTo_map]
  exact List.count_eq_zero_of_not_mem hr

theorem readerAdd_open (s : stream) (r : reader) (hopen : s.nonRTSPReaders.ma ≠ none) :
    ∃ s1, s.readerAdd r = some s1 ∧ s1.nonRTSPReaders.ma ≠ none ∧
      s1.rtspStream = s.rtspStream ∧
      (∀ c, c ∈ s1.nonRTSPReaders.members ↔
        c ∈ s.nonRTSPReaders.members ∨ (c = r ∧ r.isPathRTSPSession = false)) := by
  obtain ⟨⟨ma⟩, rs⟩ := s
  cases ma with
  | none => exact absurd rfl hopen
  | some l =>
    cases hk : r.isPathRTSPSession with
    | true =>
      refine ⟨⟨⟨some l⟩, rs⟩, by simp [stream.readerAdd, hk], by simp, rfl, ?_⟩
      intro c
      simp
    | false =>
      refine ⟨⟨⟨some (if r ∈ l then l else l ++ [r])⟩, rs⟩,
        by simp [stream.readerAdd, hk, streamNonRTSPReadersMap.add], by simp, rfl, ?_⟩
      intro c
      show c ∈ (if r ∈ l then l else l ++ [r]) ↔ c ∈ l ∨ (c = r ∧ false = false)
      split_ifs with hm
      · constructor
        · exact Or.inl
        · rintro (a | ⟨a, _⟩)
          · exact a
          · rw [a]; exact hm
      · simp

theorem readerRemove_members (s : stream) (r : reader) :
    ((s.readerRemove r).nonRTSPReaders.ma = none ↔ s.nonRTSPReaders.ma = none) ∧
    (s.readerRemove r).rtspStream = s.rtspStream ∧
    (∀ c, c ∈ (s.readerRemove r).nonRTSPReaders.members → c ∈ s.nonRTSPReaders.members) := by
  obtain ⟨⟨ma⟩, rs⟩ := s
  cases hk : r.isPathRTSPSession with
  | true =>
    have e : stream.readerRemove ⟨⟨ma⟩, rs⟩ r = ⟨⟨ma⟩, rs⟩ := by simp [stream.readerRemove, hk]
    rw [e]
    exact ⟨Iff.rfl, rfl, fun _ h => h⟩
  | false =>
    have e : stream.readerRemove ⟨⟨ma⟩, rs⟩ r =
        ⟨streamNonRTSPReadersMap.remove ⟨ma⟩ r, rs⟩ := by simp [stream.readerRemove, hk]
    rw [e]
    refine ⟨?_, rfl, ?_⟩
    · cases ma <;> simp [streamNonRTSPReadersMap.remove]
    · intro c hc
      rw [remove_members] at hc
      exact (List.mem_filter.1 hc).1

theorem runOps_open (s : stream) (ops : List ReaderOp)
    (hopen : s.nonRTSPReaders.ma ≠ none)
    (hno : ∀ r ∈ s.nonRTSPReaders.members, r.isPathRTSPSession = false) :
    ∃ s1, s.runOps ops = some s1 ∧ s1.nonRTSPReaders.ma ≠ none ∧
      s1.rtspStream = s.rtspStream ∧
      ∀ r ∈ s1.nonRTSPReaders.members, r.isPathRTSPSession = false := by
  induction ops generalizing s with
  | nil => exact ⟨s, rfl, hopen, rfl, hno⟩
  | cons op rest ih =>
    cases op with
    | add r =>
      obtain ⟨s1, h1, ho1, hr1, hm1⟩ := readerAdd_open s r hopen
      have hno1 : ∀ c ∈ s1.nonRTSPReaders.members, c.isPathRTSPSession = false := by
        intro c hc
        rcases (hm1 c).1 hc with a | ⟨a, b⟩
        · exact hno c a
        · rw [a]; exact b
      obtain ⟨s2, h2, ho2, hr2, hm2⟩ := ih s1 ho1 hno1
      refine ⟨s2, ?_, ho2, hr2.trans hr1, hm2⟩
      simp only [stream.runOps, h1]
      exact h2
    | remove r =>
      obtain ⟨e1, e2, e3⟩ := readerRemove_members s r
      obtain ⟨s2, h2, ho2, hr2, hm2⟩ := ih (s.readerRemove r)
        (fun h => hopen (e1.1 h)) (fun c hc => hno c (e3 c hc))
      exact ⟨s2, h2, ho2, hr2.trans e2, hm2⟩

/-! ## Claims on forwarding and the registry -/

/-- C11. Fail-open on missing parameter sets. On an H264 track whose cached
SPS and PPS are both empty, for a sample of non-empty NALUs with an IDR and
no SPS or PPS, `writeData` does not panic and returns when the file on disk
can be opened or the track is not track 0; the payload it leaves has, before
each IDR, two empty values and then that IDR; the RTSP sink is called once
and every registered non-RTSP reader gets one `onReaderData` call, with the
rewritten sample. -/
theorem fail_open_on_missing_parameters (env : Env) (st : stream) (d : data)
    (ht : trackAt st.rtspStream.tracks d.trackID = some (Track.h264 ⟨[], []⟩))
    (hne : ∀ n ∈ d.h264NALUs, n ≠ [])
    (hidr : ∃ n ∈ d.h264NALUs, isIDR n)
    (hno : ∀ n ∈ d.h264NALUs, ¬ isSPS n ∧ ¬ isPPS n)
    (hv : st.nonRTSPReaders.valid) :
    (writeData env st d).status ≠ Status.panicked ∧
    (env.openFile = true ∨ d.trackID ≠ 0 → (writeData env st d).status = Status.returned) ∧
    (writeData env st d).d.h264NALUs = d.h264NALUs.flatMap (refSegment ⟨[], []⟩) ∧
    (∀ pre idr post, d.h264NALUs = pre ++ idr :: post → isIDR idr →
      (writeData env st d).d.h264NALUs =
        pre.flatMap (refSegment ⟨[], []⟩) ++ [[], [], idr] ++
          post.flatMap (refSegment ⟨[], []⟩)) ∧
    (∃ idr ∈ d.h264NALUs, isIDR idr ∧ [[], [], idr] <:+: (writeData env st d).d.h264NALUs) ∧
    sinkCalls (writeData env st d).trace = 1 ∧
    Event.WritePacketRTP d.trackID d.rtp d.ptsEqualsDTS ∈ (writeData env st d).trace ∧
    (∀ c, deliveriesTo c (writeData env st d).trace =
      if c ∈ st.nonRTSPReaders.members then 1 else 0) ∧
    (∀ c ∈ st.nonRTSPReaders.members,
      Event.onReaderData c (writeData env st d).d ∈ (writeData env st d).trace) := by
  have hw := writeData_h264 env st d ⟨[], []⟩ ht hne
  rw [foldl_cacheStep_noParam _ _ hno] at hw
  have hsplit : ∀ pre idr post, d.h264NALUs = pre ++ idr :: post → isIDR idr →
      d.h264NALUs.flatMap (refSegment ⟨[], []⟩) =
        pre.flatMap (refSegment ⟨[], []⟩) ++ [[], [], idr] ++
          post.flatMap (refSegment ⟨[], []⟩) := by
    intro pre idr post e h5
    rw [e, List.flatMap_append, List.flatMap_cons, refSegment_idr _ _ h5, List.append_assoc]
  rw [hw]
  refine ⟨forward_status _ _ _, fun ho => forward_returned _ _ _ ho, rfl, hsplit, ?_,
    (forward_counts _ _ _).1, ?_, ?_, ?_⟩
  · obtain ⟨idr, hmem, h5⟩ := hidr
    obtain ⟨pre, post, e⟩ := List.append_of_mem hmem
    refine ⟨idr, hmem, h5, ?_⟩
    rw [forward_d]
    show [[], [], idr] <:+: d.h264NALUs.flatMap (refSegment ⟨[], []⟩)
    rw [hsplit pre idr post e h5]
    exact ⟨_, _, rfl⟩
  · rw [forward_trace]
    exact List.mem_append_left _ (List.mem_cons_self _ _)
  · intro c
    rw [(forward_counts _ _ _).2 c]
    exact count_of_nodup _ c hv
  · intro c hc
    rw [forward_trace, forward_d]
    exact List.mem_append_left _ (List.mem_cons_of_mem _
      (List.mem_map.2 ⟨c, hc, rfl⟩))

/-- Witness of C11: a delimiter, an IDR and a slice on a fresh H264 track,
with two readers registered. -/
theorem fail_open_on_missing_parameters_witness :
    (writeData ⟨true, fun _ => none⟩
        ⟨⟨some [⟨1, false⟩, ⟨2, false⟩]⟩, ⟨[Track.h264 ⟨[], []⟩], false⟩⟩
        ⟨0, 5, true, [[0x09], [0x65, 3], [0x41, 4]]⟩).d.h264NALUs =
      ([[0x09], [0x65, 3], [0x41, 4]] : List NALU).flatMap (refSegment ⟨[], []⟩) :=
  (fail_open_on_missing_parameters ⟨true, fun _ => none⟩
    ⟨⟨some [⟨1, false⟩, ⟨2, false⟩]⟩, ⟨[Track.h264 ⟨[], []⟩], false⟩⟩
    ⟨0, 5, true, [[0x09], [0x65, 3], [0x41, 4]]⟩ (by decide) (by decide) (by decide)
    (by decide) (by decide)).2.2.1

/-- C12. For every registry and reader `r`, `add(r)` followed by `add(r)`
gives the same registry as one `add(r)` (both panic on the nil map of a closed
registry); after an `add` that returns, `r` is a member and the keys are
still distinct. `forwardPacketRTP(d)` makes only `onReaderData(d)` calls on
members, exactly one for each member and none for any other reader; so a
reader registered twice gets one delivery. -/
theorem add_idempotent_single_delivery (m : streamNonRTSPReadersMap) (r : reader)
    (d : data) :
    (m.add r).bind (fun m1 => m1.add r) = m.add r ∧
    (∀ m1, m.add r = some m1 → r ∈ m1.members ∧ (m.valid → m1.valid)) ∧
    (∀ e ∈ m.forwardPacketRTP d, ∃ c ∈ m.members, e = Event.onReaderData c d) ∧
    (m.valid → ∀ c, deliveriesTo c (m.forwardPacketRTP d) =
      if c ∈ m.members then 1 else 0) ∧
    (m.valid → ∀ m1 m2, m.add r = some m1 → m1.add r = some m2 →
      deliveriesTo r (m2.forwardPacketRTP d) = 1) := by
  have hmem : ∀ m1, m.add r = some m1 → r ∈ m1.members := by
    intro m1 h1
    rw [(add_members m m1 r h1).2]
    split_ifs with hm
    · exact hm
    · exact List.mem_append_right _ (List.mem_singleton_self r)
  have hcount : ∀ m0 : streamNonRTSPReadersMap, m0.valid → ∀ c,
      deliveriesTo c (m0.forwardPacketRTP d) = if c ∈ m0.members then 1 else 0 := by
    intro m0 hv c
    rw [forwardPacketRTP_eq, deliveriesTo_map]
    exact count_of_nodup _ c hv
  refine ⟨?_, fun m1 h1 => ⟨hmem m1 h1, add_valid m m1 r h1⟩, ?_, hcount m, ?_⟩
  · cases h1 : m.add r with
    | none => rfl
    | some m1 =>
      have hr := hmem m1 h1
      obtain ⟨e1, _⟩ := add_members m m1 r h1
      obtain ⟨ma1⟩ := m1
      cases ma1 with
      | none => cases e1
      | some l =>
        have hr1 : r ∈ l := hr
        show streamNonRTSPReadersMap.add ⟨some l⟩ r = some ⟨some l⟩
        simp only [streamNonRTSPReadersMap.add]
        rw [if_pos hr1]
  · intro e he
    rw [forwardPacketRTP_eq] at he
    obtain ⟨c, hc, rfl⟩ := List.mem_map.1 he
    exact ⟨c, hc, rfl⟩
  · intro hv m1 m2 h1 h2
    have hv2 : m2.valid := add_valid m1 m2 r h2 (add_valid m m1 r h1 hv)
    have hr2 : r ∈ m2.members := by
      rw [(add_members m1 m2 r h2).2]
      split_ifs with hm
      · exact hm
      · exact List.mem_append_right _ (List.mem_singleton_self r)
    rw [hcount m2 hv2 r, if_pos hr2]

/-- Witness of C12: a registry with one reader, to which a second reader is
added twice. -/
theorem add_idempotent_single_delivery_witness :
    deliveriesTo ⟨2, false⟩
      (streamNonRTSPReadersMap.forwardPacketRTP ⟨some [⟨1, false⟩, ⟨2, false⟩]⟩
        ⟨0, 5, true, [[0x41]]⟩) = 1 :=
  (add_idempotent_single_delivery ⟨some [⟨1, false⟩]⟩ ⟨2, false⟩
    ⟨0, 5, true, [[0x41]]⟩).2.2.2.2 (by decide) ⟨some [⟨1, false⟩, ⟨2, false⟩]⟩
    ⟨some [⟨1, false⟩, ⟨2, false⟩]⟩ (by decide) (by decide)

/-- C13. `remove(r)` is total: it returns a registry on every registry, the
nil map included. Afterwards `r` is not a member and every other reader is a
member exactly when it was; `forwardPacketRTP` then makes no call on `r`, and
this stays so through any further `add` and `remove` calls that do not add
`r` again. When `r` was not a member, `remove(r)` leaves the registry as it
was. -/
theorem remove_then_no_delivery (m : streamNonRTSPReadersMap) (r : reader) (d : data) :
    r ∉ (m.remove r).members ∧
    (∀ c, c ≠ r → (c ∈ (m.remove r).members ↔ c ∈ m.members)) ∧
    (∀ d1, Event.onReaderData r d1 ∉ (m.remove r).forwardPacketRTP d) ∧
    deliveriesTo r ((m.remove r).forwardPacketRTP d) = 0 ∧
    (r ∉ m.members → m.remove r = m) ∧
    (m.valid → (m.remove r).valid) ∧
    (∀ ops m1, (∀ op ∈ ops, op ≠ ReaderOp.add r) → (m.remove r).runOps ops = some m1 →
      r ∉ m1.members ∧ deliveriesTo r (m1.forwardPacketRTP d) = 0) := by
  have hout : r ∉ (m.remove r).members := by
    rw [remove_members]
    intro h
    have := (List.mem_filter.1 h).2
    simp at this
  refine ⟨hout, ?_, ?_, deliveriesTo_non_member _ r d hout, ?_, remove_valid m r, ?_⟩
  · intro c hc
    rw [remove_members, List.mem_filter]
    simp [hc]
  · intro d1 h
    rw [forwardPacketRTP_eq] at h
    obtain ⟨c, hc, e⟩ := List.mem_map.1 h
    cases e
    exact hout hc
  · intro hr
    obtain ⟨ma⟩ := m
    cases ma with
    | none => rfl
    | some l =>
      have hl : r ∉ l := hr
      simp only [streamNonRTSPReadersMap.remove]
      congr 2
      rw [List.filter_eq_self]
      intro a ha
      have : a ≠ r := fun e => hl (e ▸ ha)
      simpa using this
  · intro ops m1 hops hrun
    have h1 := runOps_keeps_out r ops hops (m.remove r) m1 hout hrun
    exact ⟨h1, deliveriesTo_non_member _ r d h1⟩

/-- Witness of C13: removing a reader, then adding another and removing a
third, leaves no delivery to the removed one. -/
theorem remove_then_no_delivery_witness :
    deliveriesTo ⟨1, false⟩
      (streamNonRTSPReadersMap.forwardPacketRTP ⟨some [⟨2, false⟩, ⟨3, false⟩]⟩
        ⟨0, 5, true, [[0x41]]⟩) = 0 :=
  ((remove_then_no_delivery ⟨some [⟨1, false⟩, ⟨2, false⟩]⟩ ⟨1, false⟩
    ⟨0, 5, true, [[0x41]]⟩).2.2.2.2.2.2
    [ReaderOp.add ⟨3, false⟩, ReaderOp.remove ⟨4, false⟩] ⟨some [⟨2, false⟩, ⟨3, false⟩]⟩
    (by decide) (by decide)).2

/-- C14. Starting from a new stream, every sequence of `readerAdd` and
`readerRemove` calls runs without panic and leaves a registry that holds no
RTSP session. `readerAdd` and `readerRemove` of an RTSP session leave the
stream as it was; `readerAdd` of any other reader on an open stream makes it
a member and keeps the members there were. -/
theorem registry_excludes_rtsp_sessions (tracks : List Track) (ops : List ReaderOp) :
    (∃ s, (newStream tracks).runOps ops = some s ∧
      s.nonRTSPReaders.ma ≠ none ∧
      s.rtspStream = ⟨tracks, false⟩ ∧
      ∀ r ∈ s.nonRTSPReaders.members, r.isPathRTSPSession = false) ∧
    (∀ (s : stream) (r : reader), r.isPathRTSPSession = true →
      s.readerAdd r = some s ∧ s.readerRemove r = s) ∧
    (∀ (s : stream) (r : reader), r.isPathRTSPSession = false →
      s.nonRTSPReaders.ma ≠ none →
      ∃ s1, s.readerAdd r = some s1 ∧ r ∈ s1.nonRTSPReaders.members ∧
        (∀ c, c ∈ s1.nonRTSPReaders.members ↔ c ∈ s.nonRTSPReaders.members ∨ c = r) ∧
        s1.rtspStream = s.rtspStream) := by
  refine ⟨?_, ?_, ?_⟩
  · exact runOps_open (newStream tracks) ops (by simp [newStream, newStreamNonRTSPReadersMap])
      (by intro r hr; simp [newStream, members_new] at hr)
  · intro s r hk
    constructor
    · simp [stream.readerAdd, hk]
    · simp [stream.readerRemove, hk]
  · intro s r hk hopen
    obtain ⟨s1, h1, _, hr1, hm1⟩ := readerAdd_open s r hopen
    have hm2 : ∀ c, c ∈ s1.nonRTSPReaders.members ↔ c ∈ s.nonRTSPReaders.members ∨ c = r := by
      intro c
      rw [hm1 c]
      simp [hk]
    exact ⟨s1, h1, (hm2 r).2 (Or.inr rfl), hm2, hr1⟩

/-- Witness of C14: on an open stream with one reader, `readerAdd` of a
second reader that is no RTSP session. -/
theorem registry_excludes_rtsp_sessions_witness :
    ∃ s1, stream.readerAdd ⟨⟨some [⟨1, false⟩]⟩, ⟨[Track.other 0], false⟩⟩ ⟨2, false⟩ =
        some s1 ∧ (⟨2, false⟩ : reader) ∈ s1.nonRTSPReaders.members :=
  let ⟨s1, h1, h2, _⟩ :=
    (registry_excludes_rtsp_sessions [] []).2.2
      ⟨⟨some [⟨1, false⟩]⟩, ⟨[Track.other 0], false⟩⟩ ⟨2, false⟩ rfl (by decide)
  ⟨s1, h1, h2⟩

/-! ## Facts about `writeData` as a whole -/

theorem writeData_cases (env : Env) (st : stream) (d : data) :
    ((writeData env st d).status = Status.panicked ∧ (writeData env st d).trace = [] ∧
      (writeData env st d).d = d) ∨
    ∃ s1 d1, writeData env st d = forward env s1 d1 ∧
      s1.nonRTSPReaders = st.nonRTSPReaders ∧
      d1.trackID = d.trackID ∧ d1.rtp = d.rtp ∧ d1.ptsEqualsDTS = d.ptsEqualsDTS := by
  cases ht : trackAt st.rtspStream.tracks d.trackID with
  | none =>
    have e : writeData env st d = ⟨Status.panicked, st, d, []⟩ := by
      unfold writeData
      rw [ht]
    rw [e]
    exact Or.inl ⟨rfl, rfl, rfl⟩
  | some t =>
    cases t with
    | other k =>
      have e : writeData env st d = forward env st d := by
        unfold writeData
        rw [ht]
      exact Or.inr ⟨st, d, e, rfl, rfl, rfl, rfl⟩
    | h264 h =>
      cases hc : (updateH264TrackParameters h d.h264NALUs).completed with
      | false =>
        have e : writeData env st d = ⟨Status.panicked,
            st.withTrack d.trackID (Track.h264 (updateH264TrackParameters h d.h264NALUs).track),
            d, []⟩ := by
          unfold writeData
          rw [ht]
          simp [hc]
        rw [e]
        exact Or.inl ⟨rfl, rfl, rfl⟩
      | true =>
        cases hr : remuxH264NALUs (updateH264TrackParameters h d.h264NALUs).track d with
        | none =>
          have e : writeData env st d = ⟨Status.panicked,
              st.withTrack d.trackID
                (Track.h264 (updateH264TrackParameters h d.h264NALUs).track),
              d, []⟩ := by
            unfold writeData
            rw [ht]
            simp [hc, hr]
          rw [e]
          exact Or.inl ⟨rfl, rfl, rfl⟩
        | some d1 =>
          have e : writeData env st d = forward env
              (st.withTrack d.trackID
                (Track.h264 (updateH264TrackParameters h d.h264NALUs).track)) d1 := by
            unfold writeData
            rw [ht]
            simp [hc, hr]
          have hd1 : d1.trackID = d.trackID ∧ d1.rtp = d.rtp ∧
              d1.ptsEqualsDTS = d.ptsEqualsDTS := by
            unfold remuxH264NALUs at hr
            cases hl : remuxLoop (updateH264TrackParameters h d.h264NALUs).track
                d.h264NALUs [] with
            | none => rw [hl] at hr; cases hr
            | some out =>
              rw [hl] at hr
              simp only [Option.map_some', Option.some.injEq] at hr
              subst hr
              exact ⟨rfl, rfl, rfl⟩
          exact Or.inr ⟨_, d1, e, rfl, hd1.1, hd1.2.1, hd1.2.2⟩

theorem forward_nil_registry (env : Env) (s s1 : stream) (d : data)
    (hnil : s1.nonRTSPReaders.members = []) :
    (forward env s1 d).status = (forward env s d).status ∧
    (forward env s1 d).trace = (forward env s d).trace.filter (fun e => !e.isReaderData) := by
  constructor
  · rfl
  · rw [forward_trace, forward_trace, hnil, List.filter_append,
      (save_trace env d.trackID d.rtp d.ptsEqualsDTS d.h264NALUs).2.2]
    congr 1
    have hmap : ∀ l : List reader,
        (l.map (fun c => Event.onReaderData c d)).filter (fun e => !e.isReaderData) = [] := by
      intro l
      induction l with
      | nil => rfl
      | cons a rest ih =>
        rw [List.map_cons, List.filter_cons_of_neg (by simp [Event.isReaderData])]
        exact ih
    rw [List.filter_cons_of_pos (by simp [Event.isReaderData]), hmap]
    rfl

theorem update_replay (h : TrackH264) (l : List NALU) :
    (updateH264TrackParameters h l).track = applySets h (updateH264TrackParameters h l).sets := by
  induction l generalizing h with
  | nil => rfl
  | cons n rest ih =>
    cases n with
    | nil => rfl
    | cons b tl =>
      simp only [updateH264TrackParameters]
      split_ifs
      · exact ih _
      · exact ih _
      · exact ih _
      · exact ih _
      · exact ih _

theorem update_sets_mem (h : TrackH264) (l : List NALU) :
    ∀ c ∈ (updateH264TrackParameters h l).sets,
      (∃ v, c = SetCall.sps v ∧ v ∈ l ∧ isSPS v) ∨
      (∃ v, c = SetCall.pps v ∧ v ∈ l ∧ isPPS v) := by
  induction l generalizing h with
  | nil =>
    intro c hc
    simp [updateH264TrackParameters] at hc
  | cons n rest ih =>
    have lift : ∀ (h0 : TrackH264), ∀ c ∈ (updateH264TrackParameters h0 rest).sets,
        (∃ v, c = SetCall.sps v ∧ v ∈ n :: rest ∧ isSPS v) ∨
        (∃ v, c = SetCall.pps v ∧ v ∈ n :: rest ∧ isPPS v) := by
      intro h0 c hc
      rcases ih h0 c hc with ⟨v, e, hm, ht⟩ | ⟨v, e, hm, ht⟩
      · exact Or.inl ⟨v, e, List.mem_cons_of_mem _ hm, ht⟩
      · exact Or.inr ⟨v, e, List.mem_cons_of_mem _ hm, ht⟩
    cases n with
    | nil =>
      intro c hc
      simp [updateH264TrackParameters] at hc
    | cons b tl =>
      simp only [updateH264TrackParameters]
      split_ifs with h7 he h8 he
      · intro c hc
        rcases List.mem_cons.1 hc with e | hc
        · exact Or.inl ⟨b :: tl, e, List.mem_cons_self _ _,
            by simp [isSPS, naluTyp_cons, h7]⟩
        · exact lift _ c hc
      · exact lift _
      · intro c hc
        rcases List.mem_cons.1 hc with e | hc
        · exact Or.inr ⟨b :: tl, e, List.mem_cons_self _ _,
            by simp [isPPS, naluTyp_cons, h8]⟩
        · exact lift _ c hc
      · exact lift _
      · exact lift _

theorem getLast?_cons_getD (n a : NALU) (xs : List NALU) :
    ((n :: xs).getLast?).getD a = (xs.getLast?).getD n := by
  induction xs generalizing n a with
  | nil => rfl
  | cons y ys ih =>
    rw [List.getLast?_cons_cons, ih y a, ih y n]

theorem foldl_sps_last (h : TrackH264) (l : List NALU) :
    (l.foldl cacheStep h).sps = (lastOfType NALUTypeSPS l).getD h.sps := by
  induction l generalizing h with
  | nil => rfl
  | cons n rest ih =>
    rw [List.foldl_cons, ih]
    unfold lastOfType
    rcases cacheStep_sps h n with ⟨e, h7⟩ | ⟨e, h7⟩
    · rw [e, List.filter_cons_of_neg (by simpa using h7)]
    · rw [e, List.filter_cons_of_pos (by simpa using h7), getLast?_cons_getD]

theorem foldl_pps_last (h : TrackH264) (l : List NALU) :
    (l.foldl cacheStep h).pps = (lastOfType NALUTypePPS l).getD h.pps := by
  induction l generalizing h with
  | nil => rfl
  | cons n rest ih =>
    rw [List.foldl_cons, ih]
    unfold lastOfType
    rcases cacheStep_pps h n with ⟨e, h8⟩ | ⟨e, h8⟩
    · rw [e, List.filter_cons_of_neg (by simpa using h8)]
    · rw [e, List.filter_cons_of_pos (by simpa using h8), getLast?_cons_getD]

theorem refSegment_twice (c : TrackH264) (n : NALU) (hs : isSPS c.sps) (hp : isPPS c.pps) :
    (refSegment c n).flatMap (refSegment c) = refSegment c n := by
  by_cases hk : isSPS n ∨ isPPS n ∨ isAUD n
  · rw [refSegment, if_pos hk]
    rfl
  · by_cases h5 : isIDR n
    · rw [refSegment_idr c n h5]
      simp only [List.flatMap_cons, List.flatMap_nil, refSegment_param c _ (Or.inl hs),
        refSegment_param c _ (Or.inr hp), refSegment_idr c n h5]
      rfl
    · have e : refSegment c n = [n] := by rw [refSegment, if_neg hk, if_neg h5]
      rw [e]
      simp only [List.flatMap_cons, List.flatMap_nil, e]
      rfl

theorem refSegment_ne_nil (c : TrackH264) (n : NALU) (hs : c.sps ≠ []) (hp : c.pps ≠ [])
    (hn : n ≠ []) : ∀ x ∈ refSegment c n, x ≠ [] := by
  unfold refSegment
  split_ifs
  · intro x hx
    simp at hx
  · intro x hx
    simp only [List.mem_cons, List.mem_singleton, List.not_mem_nil, or_false] at hx
    rcases hx with rfl | rfl | rfl
    · exact hs
    · exact hp
    · exact hn
  · intro x hx
    rw [List.mem_singleton] at hx
    rw [hx]
    exact hn

theorem writeData_close (env : Env) (st : stream) (d : data) :
    (writeData env st.close d).status = (writeData env st d).status ∧
    (writeData env st.close d).d = (writeData env st d).d ∧
    (writeData env st.close d).s.rtspStream.tracks = (writeData env st d).s.rtspStream.tracks ∧
    (writeData env st.close d).trace =
      (writeData env st d).trace.filter (fun e => !e.isReaderData) := by
  cases ht : trackAt st.rtspStream.tracks d.trackID with
  | none =>
    have e1 : writeData env st d = ⟨Status.panicked, st, d, []⟩ := by
      unfold writeData
      rw [ht]
    have e2 : writeData env st.close d = ⟨Status.panicked, st.close, d, []⟩ := by
      unfold writeData
      rw [show trackAt st.close.rtspStream.tracks d.trackID = none from ht]
    rw [e1, e2]
    exact ⟨rfl, rfl, rfl, rfl⟩
  | some t =>
    cases t with
    | other k =>
      have e1 : writeData env st d = forward env st d := by
        unfold writeData
        rw [ht]
      have e2 : writeData env st.close d = forward env st.close d := by
        unfold writeData
        rw [show trackAt st.close.rtspStream.tracks d.trackID = some (Track.other k) from ht]
      rw [e1, e2]
      exact ⟨rfl, rfl, rfl, (forward_nil_registry env st st.close d rfl).2⟩
    | h264 h =>
      have ht2 : trackAt st.close.rtspStream.tracks d.trackID = some (Track.h264 h) := ht
      cases hc : (updateH264TrackParameters h d.h264NALUs).completed with
      | false =>
        have e1 : writeData env st d = ⟨Status.panicked,
            st.withTrack d.trackID (Track.h264 (updateH264TrackParameters h d.h264NALUs).track),
            d, []⟩ := by
          unfold writeData
          rw [ht]
          simp [hc]
        have e2 : writeData env st.close d = ⟨Status.panicked,
            st.close.withTrack d.trackID
              (Track.h264 (updateH264TrackParameters h d.h264NALUs).track),
            d, []⟩ := by
          unfold writeData
          rw [ht2]
          simp [hc]
        rw [e1, e2]
        exact ⟨rfl, rfl, rfl, rfl⟩
      | true =>
        cases hr : remuxH264NALUs (updateH264TrackParameters h d.h264NALUs).track d with
        | none =>
          have e1 : writeData env st d = ⟨Status.panicked,
              st.withTrack d.trackID
                (Track.h264 (updateH264TrackParameters h d.h264NALUs).track),
              d, []⟩ := by
            unfold writeData
            rw [ht]
            simp [hc, hr]
          have e2 : writeData env st.close d = ⟨Status.panicked,
              st.close.withTrack d.trackID
                (Track.h264 (updateH264TrackParameters h d.h264NALUs).track),
              d, []⟩ := by
            unfold writeData
            rw [ht2]
            simp [hc, hr]
          rw [e1, e2]
          exact ⟨rfl, rfl, rfl, rfl⟩
        | some d1 =>
          have e1 : writeData env st d = forward env
              (st.withTrack d.trackID
                (Track.h264 (updateH264TrackParameters h d.h264NALUs).track)) d1 := by
            unfold writeData
            rw [ht]
            simp [hc, hr]
          have e2 : writeData env st.close d = forward env
              (st.close.withTrack d.trackID
                (Track.h264 (updateH264TrackParameters h d.h264NALUs).track)) d1 := by
            unfold writeData
            rw [ht2]
            simp [hc, hr]
          rw [e1, e2]
          exact ⟨rfl, rfl, rfl,
            (forward_nil_registry env
              (st.withTrack d.trackID
                (Track.h264 (updateH264TrackParameters h d.h264NALUs).track))
              (st.close.withTrack d.trackID
                (Track.h264 (updateH264TrackParameters h d.h264NALUs).track)) d1 rfl).2⟩

/-! ## Claims on closing, framing and totality -/

/-- C15, refuted as stated: after `close`, `writeData` on a valid sample
returns without any error and has called `WritePacketRTP` on the RTSP server
stream. -/
theorem writeData_after_close_counterexample :
    (writeData ⟨true, fun _ => none⟩
        (stream.close ⟨⟨some [⟨1, false⟩]⟩, ⟨[Track.other 0, Track.h264 ⟨[], []⟩], false⟩⟩)
        ⟨1, 5, true, [[0x41, 4]]⟩).status = Status.returned ∧
    (writeData ⟨true, fun _ => none⟩
        (stream.close ⟨⟨some [⟨1, false⟩]⟩, ⟨[Track.other 0, Track.h264 ⟨[], []⟩], false⟩⟩)
        ⟨1, 5, true, [[0x41, 4]]⟩).trace = [Event.WritePacketRTP 1 5 true] := by
  decide

/-- C15, amended. For every stream state and every sample, `close()` followed
by `writeData(sample)` makes no `onReaderData` call on any reader: the
registry map is nil. For the rest it does what it does on the open stream:
same ending (no closed-state error exists), same rewritten sample, same
caches, and the same calls but the deliveries to readers; unless it panics
(track index out of range, zero-length NALU) it calls `WritePacketRTP` on the
RTSP server stream once. -/
theorem writeData_after_close (env : Env) (st : stream) (d : data) :
    (∀ r, deliveriesTo r (writeData env st.close d).trace = 0) ∧
    (∀ r d1, Event.onReaderData r d1 ∉ (writeData env st.close d).trace) ∧
    (writeData env st.close d).status = (writeData env st d).status ∧
    (writeData env st.close d).d = (writeData env st d).d ∧
    (writeData env st.close d).s.rtspStream.tracks = (writeData env st d).s.rtspStream.tracks ∧
    (writeData env st.close d).trace =
      (writeData env st d).trace.filter (fun e => !e.isReaderData) ∧
    ((writeData env st.close d).status ≠ Status.panicked →
      sinkCalls (writeData env st.close d).trace = 1 ∧
      Event.WritePacketRTP d.trackID d.rtp d.ptsEqualsDTS ∈ (writeData env st.close d).trace) := by
  obtain ⟨c1, c2, c3, c4⟩ := writeData_close env st d
  have hfil : ∀ r d1, Event.onReaderData r d1 ∉ (writeData env st.close d).trace := by
    intro r d1 hmem
    rw [c4] at hmem
    have := (List.mem_filter.1 hmem).2
    simp [Event.isReaderData] at this
  refine ⟨?_, hfil, c1, c2, c3, c4, ?_⟩
  · intro r
    unfold deliveriesTo
    rw [List.countP_eq_zero]
    intro e he
    cases e with
    | onReaderData c d1 => exact absurd he (hfil c d1)
    | WritePacketRTP _ _ _ => simp
    | fileWrite _ => simp
    | printError => simp
    | logFatal => simp
  · intro hnp
    rcases writeData_cases env st.close d with ⟨hp, _, _⟩ | ⟨s1, d1, e, _, h1, h2, h3⟩
    · exact absurd hp hnp
    · rw [e]
      refine ⟨(forward_counts env s1 d1).1, ?_⟩
      rw [forward_trace, h1, h2, h3]
      exact List.mem_append_left _ (List.mem_cons_self _ _)

/-- Witness of C15 amended: a closed stream that had one reader, and a sample
for its H264 track 0. -/
theorem writeData_after_close_witness :
    sinkCalls (writeData ⟨true, fun _ => some [1, 2]⟩
        (stream.close ⟨⟨some [⟨1, false⟩]⟩, ⟨[Track.h264 ⟨[], []⟩], false⟩⟩)
        ⟨0, 5, true, [[0x41, 4]]⟩).trace = 1 :=
  ((writeData_after_close ⟨true, fun _ => some [1, 2]⟩
    ⟨⟨some [⟨1, false⟩]⟩, ⟨[Track.h264 ⟨[], []⟩], false⟩⟩
    ⟨0, 5, true, [[0x41, 4]]⟩).2.2.2.2.2.2 (by decide)).1

/-- C16. For every H264 sample with a valid track index, `writeData`
leaves `trackID`, `rtp` and `ptsEqualsDTS` of the sample as they were, the
registry as it was, and every track but the sample's own as it was; the cache
of the sample's track is the one left by `updateH264TrackParameters`, which
is the old cache with the recorded setter calls replayed, each of them made
with an SPS unit or a PPS unit of that sample. -/
theorem writeData_frame (env : Env) (st : stream) (d : data) (h : TrackH264)
    (ht : trackAt st.rtspStream.tracks d.trackID = some (Track.h264 h)) :
    (writeData env st d).d.trackID = d.trackID ∧
    (writeData env st d).d.rtp = d.rtp ∧
    (writeData env st d).d.ptsEqualsDTS = d.ptsEqualsDTS ∧
    (writeData env st d).s.nonRTSPReaders = st.nonRTSPReaders ∧
    (writeData env st d).s.rtspStream.closed = st.rtspStream.closed ∧
    (writeData env st d).s.rtspStream.tracks =
      st.rtspStream.tracks.set d.trackID.toNat
        (Track.h264 (updateH264TrackParameters h d.h264NALUs).track) ∧
    (∀ j, j ≠ d.trackID.toNat →
      (writeData env st d).s.rtspStream.tracks[j]? = st.rtspStream.tracks[j]?) ∧
    (updateH264TrackParameters h d.h264NALUs).track =
      applySets h (updateH264TrackParameters h d.h264NALUs).sets ∧
    (∀ c ∈ (updateH264TrackParameters h d.h264NALUs).sets,
      (∃ v, c = SetCall.sps v ∧ v ∈ d.h264NALUs ∧ isSPS v) ∨
      (∃ v, c = SetCall.pps v ∧ v ∈ d.h264NALUs ∧ isPPS v)) := by
  have hs := writeData_s_h264 env st d h ht
  have hd : (writeData env st d).d.trackID = d.trackID ∧
      (writeData env st d).d.rtp = d.rtp ∧
      (writeData env st d).d.ptsEqualsDTS = d.ptsEqualsDTS := by
    rcases writeData_cases env st d with ⟨_, _, e⟩ | ⟨s1, d1, e, _, h1, h2, h3⟩
    · rw [e]
      exact ⟨rfl, rfl, rfl⟩
    · rw [e, forward_d]
      exact ⟨h1, h2, h3⟩
  refine ⟨hd.1, hd.2.1, hd.2.2, ?_, ?_, ?_, ?_, update_replay h _, update_sets_mem h _⟩
  · rw [hs]; rfl
  · rw [hs]; rfl
  · rw [hs]; rfl
  · intro j hj
    rw [hs]
    show (st.rtspStream.tracks.set d.trackID.toNat _)[j]? = _
    rw [List.getElem?_set_ne (Ne.symm hj)]

/-- Witness of C16: a sample with a new SPS on track 1 of a stream with three
tracks. -/
theorem writeData_frame_witness :
    (writeData ⟨true, fun _ => none⟩
        ⟨⟨some [⟨1, false⟩]⟩,
          ⟨[Track.h264 ⟨[0x67, 1], [0x68, 2]⟩, Track.h264 ⟨[], []⟩, Track.other 0], false⟩⟩
        ⟨1, 5, true, [[0x67, 7], [0x65, 3]]⟩).s.rtspStream.tracks[0]? =
      some (Track.h264 ⟨[0x67, 1], [0x68, 2]⟩) :=
  (writeData_frame ⟨true, fun _ => none⟩
    ⟨⟨some [⟨1, false⟩]⟩,
      ⟨[Track.h264 ⟨[0x67, 1], [0x68, 2]⟩, Track.h264 ⟨[], []⟩, Track.other 0], false⟩⟩
    ⟨1, 5, true, [[0x67, 7], [0x65, 3]]⟩ ⟨[], []⟩ (by decide)).2.2.2.2.2.2.1 0 (by decide)

/-- C17. For every cache and every H264 sample of non-empty NALUs, after
`updateH264TrackParameters` the cached SPS is the last SPS-typed NALU of the
sample when there is one and the previous cached SPS otherwise, and likewise
for the PPS; the payload `writeData` leaves is the reference rewrite with that
pair, so the pair injected before every IDR of the sample is that one, also
when the parameter sets come after the IDR in the sample. -/
theorem update_caches_last (env : Env) (st : stream) (d : data) (h : TrackH264)
    (ht : trackAt st.rtspStream.tracks d.trackID = some (Track.h264 h))
    (hne : ∀ n ∈ d.h264NALUs, n ≠ []) :
    (updateH264TrackParameters h d.h264NALUs).track.sps =
      (lastOfType NALUTypeSPS d.h264NALUs).getD h.sps ∧
    (updateH264TrackParameters h d.h264NALUs).track.pps =
      (lastOfType NALUTypePPS d.h264NALUs).getD h.pps ∧
    (writeData env st d).d.h264NALUs =
      d.h264NALUs.flatMap (refSegment
        ⟨(lastOfType NALUTypeSPS d.h264NALUs).getD h.sps,
          (lastOfType NALUTypePPS d.h264NALUs).getD h.pps⟩) ∧
    (∀ pre idr post, d.h264NALUs = pre ++ idr :: post → isIDR idr →
      ∃ a b, (writeData env st d).d.h264NALUs =
        a ++ [(lastOfType NALUTypeSPS d.h264NALUs).getD h.sps,
          (lastOfType NALUTypePPS d.h264NALUs).getD h.pps, idr] ++ b) := by
  have hF := (update_spec h d.h264NALUs hne).1
  have e7 := foldl_sps_last h d.h264NALUs
  have e8 := foldl_pps_last h d.h264NALUs
  have hc : d.h264NALUs.foldl cacheStep h =
      ⟨(lastOfType NALUTypeSPS d.h264NALUs).getD h.sps,
        (lastOfType NALUTypePPS d.h264NALUs).getD h.pps⟩ := by
    rw [← e7, ← e8]
  have hpay : (writeData env st d).d.h264NALUs =
      d.h264NALUs.flatMap (refSegment
        ⟨(lastOfType NALUTypeSPS d.h264NALUs).getD h.sps,
          (lastOfType NALUTypePPS d.h264NALUs).getD h.pps⟩) := by
    rw [writeData_h264 env st d h ht hne, forward_d, hc]
  refine ⟨by rw [hF, e7], by rw [hF, e8], hpay, ?_⟩
  intro pre idr post e h5
  refine ⟨pre.flatMap (refSegment
      ⟨(lastOfType NALUTypeSPS d.h264NALUs).getD h.sps,
        (lastOfType NALUTypePPS d.h264NALUs).getD h.pps⟩),
    post.flatMap (refSegment
      ⟨(lastOfType NALUTypeSPS d.h264NALUs).getD h.sps,
        (lastOfType NALUTypePPS d.h264NALUs).getD h.pps⟩), ?_⟩
  have gen : ∀ (c : TrackH264) (l : List NALU), l = pre ++ idr :: post →
      l.flatMap (refSegment c) =
        pre.flatMap (refSegment c) ++ [c.sps, c.pps, idr] ++ post.flatMap (refSegment c) := by
    intro c l el
    rw [el, List.flatMap_append, List.flatMap_cons, refSegment_idr _ _ h5, List.append_assoc]
  rw [hpay]
  exact gen _ _ e

/-- Witness of C17: the parameter sets of the sample come after its IDR and
are the ones injected before it. -/
theorem update_caches_last_witness :
    (writeData ⟨true, fun _ => none⟩ (newStream [Track.h264 ⟨[0x67, 1], [0x68, 2]⟩])
        ⟨0, 5, true, [[0x65, 3], [0x67, 7], [0x68, 8], [0x67, 9]]⟩).d.h264NALUs =
      [[0x67, 9], [0x68, 8], [0x65, 3]] :=
  ((update_caches_last ⟨true, fun _ => none⟩ (newStream [Track.h264 ⟨[0x67, 1], [0x68, 2]⟩])
    ⟨0, 5, true, [[0x65, 3], [0x67, 7], [0x68, 8], [0x67, 9]]⟩ ⟨[0x67, 1], [0x68, 2]⟩
    (by decide) (by decide)).2.2.1).trans (by decide)

/-- C18. For every sample with a valid track index whose NALUs are all
non-empty, and every cache: `updateH264TrackParameters` runs to its end,
`remuxH264NALUs` returns a payload, and `writeData` does not panic; an empty
NALU list gives an empty payload. -/
theorem normalization_total (env : Env) (st : stream) (d : data) (t : Track)
    (ht : trackAt st.rtspStream.tracks d.trackID = some t)
    (hne : ∀ n ∈ d.h264NALUs, n ≠ []) :
    (∀ c : TrackH264, (updateH264TrackParameters c d.h264NALUs).completed = true) ∧
    (∀ c : TrackH264, ∃ out, remuxH264NALUs c d =
      some ⟨d.trackID, d.rtp, d.ptsEqualsDTS, out⟩) ∧
    (writeData env st d).status ≠ Status.panicked ∧
    (d.h264NALUs = [] → ∀ c : TrackH264, remuxH264NALUs c d =
      some ⟨d.trackID, d.rtp, d.ptsEqualsDTS, []⟩) ∧
    (d.h264NALUs = [] → (writeData env st d).d.h264NALUs = []) := by
  have hrem : ∀ c : TrackH264, remuxH264NALUs c d =
      some ⟨d.trackID, d.rtp, d.ptsEqualsDTS, d.h264NALUs.flatMap (refSegment c)⟩ := by
    intro c
    simp [remuxH264NALUs, remuxLoop_spec c _ [] hne]
  have hst : (writeData env st d).status ≠ Status.panicked ∧
      (d.h264NALUs = [] → (writeData env st d).d.h264NALUs = []) := by
    cases t with
    | other k =>
      have e : writeData env st d = forward env st d := by
        unfold writeData
        rw [ht]
      rw [e]
      exact ⟨forward_status _ _ _, fun h0 => h0⟩
    | h264 h =>
      rw [writeData_h264 env st d h ht hne]
      refine ⟨forward_status _ _ _, fun h0 => ?_⟩
      rw [forward_d]
      show d.h264NALUs.flatMap _ = []
      rw [h0]
      rfl
  refine ⟨fun c => (update_spec c _ hne).2, fun c => ⟨_, hrem c⟩, hst.1, ?_, hst.2⟩
  intro h0 c
  rw [hrem c, h0]
  rfl

/-- Witness of C18: a sample of four non-empty NALUs on a fresh H264 track. -/
theorem normalization_total_witness :
    (writeData ⟨false, fun _ => none⟩ (newStream [Track.h264 ⟨[], []⟩])
        ⟨0, 5, true, [[0x09], [0x67, 7], [0x65, 3], [0x41]]⟩).status ≠ Status.panicked :=
  (normalization_total ⟨false, fun _ => none⟩ (newStream [Track.h264 ⟨[], []⟩])
    ⟨0, 5, true, [[0x09], [0x67, 7], [0x65, 3], [0x41]]⟩ (Track.h264 ⟨[], []⟩)
    (by decide) (by decide)).2.2.1

/-- C19. On a cache whose SPS is an SPS unit and whose PPS is a PPS unit, for
every sample of non-empty NALUs, `remuxH264NALUs` returns a sample on which
`remuxH264NALUs` with the same cache returns that same sample. -/
theorem remux_idempotent (c : TrackH264) (d : data)
    (hs : isSPS c.sps) (hp : isPPS c.pps) (hne : ∀ n ∈ d.h264NALUs, n ≠ []) :
    ∃ d1, remuxH264NALUs c d = some d1 ∧ remuxH264NALUs c d1 = some d1 := by
  have hrem : remuxH264NALUs c d =
      some ⟨d.trackID, d.rtp, d.ptsEqualsDTS, d.h264NALUs.flatMap (refSegment c)⟩ := by
    simp [remuxH264NALUs, remuxLoop_spec c _ [] hne]
  have hne1 : ∀ l : List NALU, (∀ n ∈ l, n ≠ []) →
      ∀ x ∈ l.flatMap (refSegment c), x ≠ [] := by
    intro l hl x hx
    obtain ⟨n, hn, hxn⟩ := List.mem_flatMap.1 hx
    exact refSegment_ne_nil c n (naluTyp_ne_nil hs) (naluTyp_ne_nil hp) (hl n hn) x hxn
  have htwice : ∀ l : List NALU,
      (l.flatMap (refSegment c)).flatMap (refSegment c) = l.flatMap (refSegment c) := by
    intro l
    induction l with
    | nil => rfl
    | cons n rest ih =>
      rw [List.flatMap_cons, List.flatMap_append, ih, refSegment_twice c n hs hp]
  refine ⟨_, hrem, ?_⟩
  simp only [remuxH264NALUs, remuxLoop_spec c _ [] (hne1 _ hne), List.nil_append,
    Option.map_some', htwice]

/-- Witness of C19: a sample with a delimiter, an old SPS, an IDR and a
slice. -/
theorem remux_idempotent_witness :
    ∃ d1, remuxH264NALUs ⟨[0x67, 1], [0x68, 2]⟩
        ⟨0, 5, true, [[0x09], [0x67, 7], [0x65, 3], [0x41]]⟩ = some d1 ∧
      remuxH264NALUs ⟨[0x67, 1], [0x68, 2]⟩ d1 = some d1 :=
  remux_idempotent ⟨[0x67, 1], [0x68, 2]⟩ ⟨0, 5, true, [[0x09], [0x67, 7], [0x65, 3], [0x41]]⟩
    (by decide) (by decide) (by decide)

end RtspStream
